import Mathlib

/-!
Verification of the OrderbookTrade matching service against its design notes.

This file gives a shallow embedding, in Lean 4, of the core components of the
repository: the matching engine (`Order`, `OrderHeap`, `Orderbook`), the trade
log (`TradeHistory`), the position ledger (`PositionManager`), the market
lifecycle (`MarketRec`), the settlement-channel allocation state
(`Allocations`), and the on-chain adjudicator (`OrderbookAdjudicator`).

Conventions used throughout the embedding:
* Go `uint64` fields are embedded as `Nat`.  Where wrap-around is semantically
  reachable (balance arithmetic, multiplications of arbitrary 64-bit inputs)
  the operation is written with an explicit reduction modulo `U64 = 2 ^ 64`;
  where the surrounding code maintains bounds that rule out wrap-around
  (e.g. `Order.Fill` is only invoked with a quantity at most the remaining
  quantity) plain `Nat` arithmetic is used and the bound is noted.
* Go strings stay `String`; Go maps with zero-value reads become total
  functions updated with `Function.update`, or lists of keys where only the
  key set matters.
* Go methods that mutate their receiver and return an `error` become pure
  functions returning the new state together with an `Option` error (or an
  `Except` when the Go function returns `(value, error)`).
* `time.Time` fields, UUID generation, mutexes and callbacks carry no
  information relevant to the verified claims and are omitted.
-/

/-- Modulus of Go's `uint64` arithmetic. -/
def U64 : Nat := 2 ^ 64

/-- Go `engine.Side` is a string type; `SideBuy`/`SideSell` are its values. -/
abbrev Side := String

def SideBuy : Side := "buy"

def SideSell : Side := "sell"

/-- Go `engine.OutcomeID` is a string type with values YES / NO. -/
abbrev OutcomeID := String

def OutcomeYes : OutcomeID := "YES"

def OutcomeNo : OutcomeID := "NO"

/-- Go `engine.OrderStatus` is a string type. -/
abbrev OrderStatus := String

def StatusOpen : OrderStatus := "open"

/-- Go constant `StatusPartial` (value "partial"). -/
def StatusPartialFill : OrderStatus := "partial"

def StatusFilled : OrderStatus := "filled"

def StatusCancelled : OrderStatus := "cancelled"

/-- Go `engine.Order` (market_orderbooks.go).  The `Timestamp` field is
omitted; `ID`, `UserID`, `MarketID` are opaque strings; `Price`, `Quantity`,
`FilledQty` and `SequenceNum` are `uint64` embedded as `Nat`. -/
structure Order where
  ID : String
  UserID : String
  MarketID : String
  OutcomeID : OutcomeID
  Side : Side
  Price : Nat
  Quantity : Nat
  FilledQty : Nat
  Status : OrderStatus
  SequenceNum : Nat
deriving DecidableEq, Repr, Inhabited

/-- Go `Order.RemainingQty`: `o.Quantity - o.FilledQty` on `uint64`.  The
engine only ever fills an order by at most its remaining quantity, so
`FilledQty ≤ Quantity` holds on all states the code produces and the `Nat`
truncated subtraction agrees with the `uint64` subtraction. -/
def Order.RemainingQty (o : Order) : Nat := o.Quantity - o.FilledQty

/-- Go `Order.Fill`: adds to the filled quantity and updates the status.  The
callers (the matching loops) always pass `qty ≤ o.RemainingQty`, so the
`uint64` addition cannot wrap. -/
def Order.Fill (o : Order) (qty : Nat) : Order :=
  let f := o.FilledQty + qty
  { o with
    FilledQty := f
    Status :=
      if f ≥ o.Quantity then StatusFilled
      else if f > 0 then StatusPartialFill
      else o.Status }

/-- Go `Order.Cancel`: marks the order cancelled. -/
def Order.Cancel (o : Order) : Order := { o with Status := StatusCancelled }

/-- Go `Order.IsBuy`. -/
def Order.IsBuy (o : Order) : Bool := o.Side = SideBuy

/-- Go `engine.Trade` (trade.go).  The generated UUID `ID` and the
`Timestamp` are omitted. -/
structure Trade where
  MarketID : String
  OutcomeID : OutcomeID
  BuyOrderID : String
  SellOrderID : String
  BuyerID : String
  SellerID : String
  Price : Nat
  Quantity : Nat
deriving DecidableEq, Repr, Inhabited

/-- Go `engine.NewTrade`. -/
def NewTrade (buyOrder sellOrder : Order) (price quantity : Nat) : Trade :=
  { MarketID := buyOrder.MarketID
    OutcomeID := buyOrder.OutcomeID
    BuyOrderID := buyOrder.ID
    SellOrderID := sellOrder.ID
    BuyerID := buyOrder.UserID
    SellerID := sellOrder.UserID
    Price := price
    Quantity := quantity }

/-- Go `engine.TradeHistory` (trade.go): a bounded log of trades. -/
structure TradeHistory where
  trades : List Trade
  maxLen : Nat
deriving DecidableEq, Repr

/-- Go `engine.NewTradeHistory`. -/
def NewTradeHistory (maxLen : Nat) : TradeHistory :=
  { trades := [], maxLen := maxLen }

/-- Go `TradeHistory.Add`: append, then trim from the front if the log
exceeds its capacity. -/
def TradeHistory.Add (h : TradeHistory) (trade : Trade) : TradeHistory :=
  let ts := h.trades ++ [trade]
  if ts.length > h.maxLen then
    { h with trades := ts.drop (ts.length - h.maxLen) }
  else
    { h with trades := ts }

/-- Go `TradeHistory.Recent`: clamp `n` to the log size and return a copy of
the last `n` entries of the slice, in slice order. -/
def TradeHistory.Recent (h : TradeHistory) (n : Nat) : List Trade :=
  let n' := if n > h.trades.length then h.trades.length else n
  h.trades.drop (h.trades.length - n')

/-- Fold a list of trades into a fresh history of capacity `cap`. -/
def addAll (cap : Nat) (ts : List Trade) : TradeHistory :=
  ts.foldl TradeHistory.Add (NewTradeHistory cap)

/-- Go `engine.orderHeap`: a slice of orders managed by `container/heap`,
with `isMax = true` for the bid side and `false` for the ask side. -/
structure OrderHeap where
  orders : List Order
  isMax : Bool
deriving DecidableEq, Repr

/-- Go `newOrderHeap`. -/
def newOrderHeap (isMax : Bool) : OrderHeap := { orders := [], isMax := isMax }

/-- Go `orderHeap.Less` comparing the orders at positions `i` and `j`:
cancelled orders sort last, then price (direction given by `isMax`), then
sequence number.  Out-of-range indices never occur at the call sites inside
`container/heap`; `getD` supplies the `default` order for totality. -/
def heapLess (isMax : Bool) (l : List Order) (i j : Nat) : Bool :=
  let oi := l.getD i default
  let oj := l.getD j default
  if oi.Status = StatusCancelled then false
  else if oj.Status = StatusCancelled then true
  else if oi.Price = oj.Price then oi.SequenceNum < oj.SequenceNum
  else if isMax then oi.Price > oj.Price
  else oi.Price < oj.Price

/-- Go `orderHeap.Swap`: exchange the slice entries at `i` and `j`. -/
def listSwap (l : List Order) (i j : Nat) : List Order :=
  (l.set i (l.getD j default)).set j (l.getD i default)

/-- Go `container/heap.up`, sifting position `j` towards the root.  The loop
variable `j` strictly decreases, so `j + 1` units of fuel always suffice; the
call sites pass the slice length. -/
def upGo (isMax : Bool) (fuel : Nat) (l : List Order) (j : Nat) : List Order :=
  match fuel with
  | 0 => l
  | fuel + 1 =>
    let i := (j - 1) / 2
    if i = j ∨ ¬ heapLess isMax l j i then l
    else upGo isMax fuel (listSwap l i j) i

/-- Go `container/heap.down`, sifting position `i` down within the first `n`
entries.  The loop variable strictly increases below `n`, so `n` units of
fuel always suffice; the call sites pass the slice length.  Go's `j1 < 0`
guard protects against `int` overflow and has no `Nat` counterpart. -/
def downGo (isMax : Bool) (fuel : Nat) (l : List Order) (i n : Nat) : List Order :=
  match fuel with
  | 0 => l
  | fuel + 1 =>
    let j1 := 2 * i + 1
    if j1 ≥ n then l
    else
      let j := if 2 * i + 2 < n ∧ heapLess isMax l (2 * i + 2) j1 then 2 * i + 2 else j1
      if heapLess isMax l j i then downGo isMax fuel (listSwap l i j) j n
      else l

/-- Go `container/heap.Push` on an `orderHeap`: append, then sift up from the
last position. -/
def heapPush (h : OrderHeap) (o : Order) : OrderHeap :=
  let l := h.orders ++ [o]
  { h with orders := upGo h.isMax l.length l (l.length - 1) }

/-- Go `container/heap.Pop` on an `orderHeap`: swap the root with the last
entry, sift the new root down within the shortened range, then drop the last
entry.  Every caller in the engine discards the returned order, so only the
new heap is produced. -/
def heapPop (h : OrderHeap) : OrderHeap :=
  let n := h.orders.length - 1
  let l1 := listSwap h.orders 0 n
  let l2 := downGo h.isMax l1.length l1 0 n
  { h with orders := l2.dropLast }

/-- Go `orderHeap.Peek`: the root of the heap, or `none` when empty. -/
def heapPeek (h : OrderHeap) : Option Order := h.orders.head?

/-- Go `engine.Orderbook`: the two sides plus the by-id index.  The Go
`orders` map stores pointers into the same order structs held by the heaps;
here `ids` keeps the key set of that map and the struct contents live in the
heaps, which reproduces the sharing.  The trade history and the trade
callback of the Go struct play no part in the verified claims and are
omitted. -/
structure Orderbook where
  bids : OrderHeap
  asks : OrderHeap
  ids : List String
deriving DecidableEq, Repr

/-- Go orderbook errors (orderbook.go). -/
inductive ObErr where
  | invalidPrice
  | invalidQuantity
  | orderNotFound
deriving DecidableEq, Repr

/-- Go `engine.NewOrderbook`: empty max-heap of bids, empty min-heap of asks,
empty index.  `heap.Init` on an empty heap is a no-op. -/
def NewOrderbook : Orderbook :=
  { bids := newOrderHeap true, asks := newOrderHeap false, ids := [] }

/-- Go map insertion `ob.orders[id] = order` viewed on the key set. -/
def idsInsert (ids : List String) (id : String) : List String :=
  if id ∈ ids then ids else ids ++ [id]

/-- Total quantity of a list of trades. -/
def sumQty (ts : List Trade) : Nat := (ts.map Trade.Quantity).sum

/-- Go `Orderbook.matchBuy`: the matching loop of an incoming buy order
against the ask heap, also threading the by-id key set (for
`delete(ob.orders, bestAsk.ID)`).  Each iteration either pops an ask or
exhausts the incoming order, so `asks.orders.length + 2` units of fuel make
the fuel guard unreachable; the properties proved below hold for every fuel.
Returns the emitted trades, the (mutated) incoming order, the new ask heap
and the new key set. -/
def matchBuyGo (fuel : Nat) (buy : Order) (asks : OrderHeap) (ids : List String) :
    List Trade × Order × OrderHeap × List String :=
  match fuel with
  | 0 => ([], buy, asks, ids)
  | fuel + 1 =>
    if 0 < asks.orders.length ∧ 0 < buy.RemainingQty then
      match heapPeek asks with
      | none => ([], buy, asks, ids)
      | some bestAsk =>
        if buy.Price < bestAsk.Price then ([], buy, asks, ids)
        else
          let matchQty := min buy.RemainingQty bestAsk.RemainingQty
          let matchPrice := bestAsk.Price
          let buy' := buy.Fill matchQty
          let ask' := bestAsk.Fill matchQty
          let asks1 : OrderHeap := { asks with orders := asks.orders.set 0 ask' }
          let trade := NewTrade buy' ask' matchPrice matchQty
          if ask'.RemainingQty = 0 then
            let r := matchBuyGo fuel buy' (heapPop asks1) (ids.erase ask'.ID)
            (trade :: r.1, r.2)
          else
            let r := matchBuyGo fuel buy' asks1 ids
            (trade :: r.1, r.2)
    else ([], buy, asks, ids)

/-- Go `Orderbook.matchSell`: symmetric matching of an incoming sell order
against the bid heap. -/
def matchSellGo (fuel : Nat) (sell : Order) (bids : OrderHeap) (ids : List String) :
    List Trade × Order × OrderHeap × List String :=
  match fuel with
  | 0 => ([], sell, bids, ids)
  | fuel + 1 =>
    if 0 < bids.orders.length ∧ 0 < sell.RemainingQty then
      match heapPeek bids with
      | none => ([], sell, bids, ids)
      | some bestBid =>
        if sell.Price > bestBid.Price then ([], sell, bids, ids)
        else
          let matchQty := min sell.RemainingQty bestBid.RemainingQty
          let matchPrice := bestBid.Price
          let sell' := sell.Fill matchQty
          let bid' := bestBid.Fill matchQty
          let bids1 : OrderHeap := { bids with orders := bids.orders.set 0 bid' }
          let trade := NewTrade bid' sell' matchPrice matchQty
          if bid'.RemainingQty = 0 then
            let r := matchSellGo fuel sell' (heapPop bids1) (ids.erase bid'.ID)
            (trade :: r.1, r.2)
          else
            let r := matchSellGo fuel sell' bids1 ids
            (trade :: r.1, r.2)
    else ([], sell, bids, ids)

/-- Go `Orderbook.PlaceOrder`: validate price and quantity, match against the
opposing side, and rest the remainder (when positive and not cancelled) on
the own side and in the by-id index. -/
def Orderbook.PlaceOrder (ob : Orderbook) (order : Order) :
    Except ObErr (List Trade × Orderbook) :=
  if order.Price > 10000 then .error .invalidPrice
  else if order.Quantity = 0 then .error .invalidQuantity
  else if order.IsBuy then
    let r := matchBuyGo (ob.asks.orders.length + 2) order ob.asks ob.ids
    let trades := r.1
    let order' := r.2.1
    let ob1 : Orderbook := { ob with asks := r.2.2.1, ids := r.2.2.2 }
    if 0 < order'.RemainingQty ∧ order'.Status ≠ StatusCancelled then
      .ok (trades, { ob1 with ids := idsInsert ob1.ids order.ID,
                              bids := heapPush ob1.bids order' })
    else
      .ok (trades, ob1)
  else
    let r := matchSellGo (ob.bids.orders.length + 2) order ob.bids ob.ids
    let trades := r.1
    let order' := r.2.1
    let ob1 : Orderbook := { ob with bids := r.2.2.1, ids := r.2.2.2 }
    if 0 < order'.RemainingQty ∧ order'.Status ≠ StatusCancelled then
      .ok (trades, { ob1 with ids := idsInsert ob1.ids order.ID,
                              asks := heapPush ob1.asks order' })
    else
      .ok (trades, ob1)

/-- Go `Orderbook.CancelOrder`: look the order up in the by-id index, mark
the shared order struct cancelled and delete the index entry; the struct
stays in its heap.  Returns the unchanged book and `ErrOrderNotFound` when
the id is absent. -/
def Orderbook.CancelOrder (ob : Orderbook) (orderID : String) :
    Orderbook × Option ObErr :=
  if orderID ∈ ob.ids then
    let cancelIn : List Order → List Order :=
      fun l => l.map fun o => if o.ID = orderID then o.Cancel else o
    ({ bids := { ob.bids with orders := cancelIn ob.bids.orders }
       asks := { ob.asks with orders := cancelIn ob.asks.orders }
       ids := ob.ids.erase orderID }, none)
  else (ob, some .orderNotFound)

/-- Go `Orderbook.GetOrder`: return the order struct the by-id map points to,
or `ErrOrderNotFound`.  The map's pointers target structs held in the heaps,
so the lookup resolves inside them; on every state the engine constructs, an
indexed id occurs in exactly one heap entry. -/
def Orderbook.GetOrder (ob : Orderbook) (orderID : String) : Except ObErr Order :=
  if orderID ∈ ob.ids then
    match (ob.bids.orders ++ ob.asks.orders).find? (fun o => o.ID = orderID) with
    | some o => .ok o
    | none => .error .orderNotFound
  else .error .orderNotFound

/-- Go `engine.Position` (positions.go): share holdings of one user in one
market. -/
structure Position where
  YesShares : Nat
  NoShares : Nat
deriving DecidableEq, Repr, Inhabited

/-- Go position-ledger errors. -/
inductive PmErr where
  | insufficientBalance
  | insufficientPosition
deriving DecidableEq, Repr

/-- Go `engine.PositionManager`: `balances` is the userID → uint64 USDC map
(zero-value read for missing keys) and `positions` the userID → marketID →
Position map; `getOrCreatePosition` materialises the zero value, which a
total function models directly. -/
structure PositionManager where
  balances : String → Nat
  positions : String → String → Position

/-- Go `NewPositionManager`: empty maps. -/
def NewPositionManager : PositionManager :=
  { balances := fun _ => 0, positions := fun _ _ => ⟨0, 0⟩ }

/-- Go `PositionManager.Deposit`: `balances[userID] += amount` on uint64. -/
def PositionManager.Deposit (pm : PositionManager) (userID : String) (amount : Nat) :
    PositionManager :=
  { pm with balances :=
      Function.update pm.balances userID ((pm.balances userID + amount) % U64) }

/-- Go `PositionManager.GetPosition` (the zero position when absent). -/
def PositionManager.GetPosition (pm : PositionManager) (userID marketID : String) :
    Position :=
  pm.positions userID marketID

/-- Go `PositionManager.ValidateOrder`: for a buy, compute
`cost := order.Price * order.Quantity / 10000` (a wrapping uint64
multiplication followed by integer division) and fail with
`ErrInsufficientBalance` when `balances[userID] < cost*10000`; for a sell,
require the outcome's share holdings to cover the quantity.  `cost * 10000`
cannot wrap because `cost ≤ (2^64 - 1) / 10000`; the reduction is kept for
fidelity. -/
def PositionManager.ValidateOrder (pm : PositionManager) (order : Order) :
    Except PmErr Unit :=
  if order.Side = SideBuy then
    let cost := order.Price * order.Quantity % U64 / 10000
    if pm.balances order.UserID < cost * 10000 % U64 then
      .error .insufficientBalance
    else .ok ()
  else
    let pos := pm.GetPosition order.UserID order.MarketID
    let available := if order.OutcomeID = OutcomeYes then pos.YesShares else pos.NoShares
    if available < order.Quantity then .error .insufficientPosition
    else .ok ()

/-- Update one user's position in one market. -/
def updatePos (ps : String → String → Position) (userID marketID : String)
    (f : Position → Position) : String → String → Position :=
  Function.update ps userID (Function.update (ps userID) marketID (f (ps userID marketID)))

/-- Go `PositionManager.ExecuteTrade`: `cost := trade.Price * trade.Quantity`
(wrapping uint64 multiplication), debit the buyer and credit the seller on
uint64 (wrapping subtraction and addition), then move `trade.Quantity` shares
of the traded outcome from seller to buyer (again uint64). -/
def PositionManager.ExecuteTrade (pm : PositionManager) (trade : Trade) :
    PositionManager :=
  let cost := trade.Price * trade.Quantity % U64
  let b1 := Function.update pm.balances trade.BuyerID
    ((pm.balances trade.BuyerID + (U64 - cost)) % U64)
  let b2 := Function.update b1 trade.SellerID ((b1 trade.SellerID + cost) % U64)
  let qty := trade.Quantity
  if trade.OutcomeID = OutcomeYes then
    let p1 := updatePos pm.positions trade.BuyerID trade.MarketID
      (fun p => { p with YesShares := (p.YesShares + qty) % U64 })
    let p2 := updatePos p1 trade.SellerID trade.MarketID
      (fun p => { p with YesShares := (p.YesShares + (U64 - qty % U64)) % U64 })
    { balances := b2, positions := p2 }
  else
    let p1 := updatePos pm.positions trade.BuyerID trade.MarketID
      (fun p => { p with NoShares := (p.NoShares + qty) % U64 })
    let p2 := updatePos p1 trade.SellerID trade.MarketID
      (fun p => { p with NoShares := (p.NoShares + (U64 - qty % U64)) % U64 })
    { balances := b2, positions := p2 }

/-- Go `PositionManager.MintShares`: cost `amount * 10000` uint64; fail with
`ErrInsufficientBalance` when the balance is smaller, otherwise debit the
cost and mint `amount` YES and NO shares. -/
def PositionManager.MintShares (pm : PositionManager) (userID marketID : String)
    (amount : Nat) : PositionManager × Option PmErr :=
  let cost := amount * 10000 % U64
  if pm.balances userID < cost then (pm, some .insufficientBalance)
  else
    ({ balances := Function.update pm.balances userID (pm.balances userID - cost)
       positions := updatePos pm.positions userID marketID
         (fun p => { YesShares := (p.YesShares + amount) % U64
                     NoShares := (p.NoShares + amount) % U64 }) }, none)

/-- Go `PositionManager.RedeemShares`: require `amount` of both YES and NO
shares, burn them and credit `amount * 10000`. -/
def PositionManager.RedeemShares (pm : PositionManager) (userID marketID : String)
    (amount : Nat) : PositionManager × Option PmErr :=
  let pos := pm.positions userID marketID
  if pos.YesShares < amount ∨ pos.NoShares < amount then
    (pm, some .insufficientPosition)
  else
    ({ balances := Function.update pm.balances userID
         ((pm.balances userID + amount * 10000) % U64)
       positions := updatePos pm.positions userID marketID
         (fun p => { YesShares := p.YesShares - amount
                     NoShares := p.NoShares - amount }) }, none)

/-- Go `market.MarketStatus` (market.go): iota constants. -/
inductive MarketStatus where
  | trading
  | locked
  | resolved
deriving DecidableEq, Repr

/-- Go market errors (errors.go). -/
inductive MErr where
  | marketNotFound
  | invalidTransition
  | marketNotLocked
  | alreadyResolved
  | invalidOutcome
deriving DecidableEq, Repr

/-- Go `market.Market`, restricted to the fields the lifecycle inspects and
mutates: `Status` and `Outcome` (a nilable pointer to the YES/NO string).
`ID`, the texts and the timestamps are carried by the market record but never
read by `Lock` or `Resolve`. -/
structure MarketRec where
  Status : MarketStatus
  Outcome : Option String
deriving DecidableEq, Repr

/-- Go `Manager.Create`: a fresh market starts in `StatusTrading` with a nil
outcome. -/
def createMarket : MarketRec := { Status := .trading, Outcome := none }

/-- Go `Manager.Lock` on a market that exists in the manager's map: require
`StatusTrading` (else `ErrInvalidTransition`) and move to `StatusLocked`. -/
def lockMarket (m : MarketRec) : Except MErr MarketRec :=
  if m.Status ≠ .trading then .error .invalidTransition
  else .ok { m with Status := .locked }

/-- Go `Manager.Resolve` on a market that exists in the manager's map: in
source order, require `StatusLocked` (else `ErrMarketNotLocked`), a nil
outcome (else `ErrAlreadyResolved`), and a YES/NO outcome argument (else
`ErrInvalidOutcome`); then set the outcome and move to `StatusResolved`. -/
def resolveMarket (outcome : String) (m : MarketRec) : Except MErr MarketRec :=
  if m.Status ≠ .locked then .error .marketNotLocked
  else if m.Outcome ≠ none then .error .alreadyResolved
  else if outcome ≠ "YES" ∧ outcome ≠ "NO" then .error .invalidOutcome
  else .ok { Status := .resolved, Outcome := some outcome }

/-- A lifecycle request against one market: `Manager.Lock` or
`Manager.Resolve` with a requested outcome string. -/
inductive MOp where
  | lock
  | resolve (outcome : String)
deriving DecidableEq, Repr

/-- Apply one lifecycle request: on an error the Go methods return before
touching the market, so the record is unchanged. -/
def applyMOp (m : MarketRec) (op : MOp) : MarketRec :=
  match op with
  | .lock => match lockMarket m with | .ok m' => m' | .error _ => m
  | .resolve o => match resolveMarket o m with | .ok m' => m' | .error _ => m

/-- Run a sequence of lifecycle requests. -/
def runMOps (ops : List MOp) (m : MarketRec) : MarketRec := ops.foldl applyMOp m

/-- Go `state.AllocationError` (allocations.go). -/
inductive AllocationError where
  | insufficientBalance
deriving DecidableEq, Repr

/-- Go `state.Allocations` (allocations.go): the participant → uint64 balance
map of one channel plus the version counter.  `channelID` and `token` are
opaque strings never read by `Transfer`/`ApplyTrade` and are omitted.  The
version is a uint64 that starts at 0 and grows by one per successful update;
wrapping it would take `2^64` successful updates, so it is embedded as a
plain `Nat`. -/
structure Allocations where
  balances : String → Nat
  version : Nat

/-- Go `NewAllocations` with a given initial balance map. -/
def NewAllocations (initial : String → Nat) : Allocations :=
  { balances := initial, version := 0 }

/-- Go `Allocations.Transfer`: fail with `ErrInsufficientBalance` when the
source balance is below `amount`, otherwise subtract, add (a wrapping uint64
addition) and bump the version. -/
def Allocations.Transfer (a : Allocations) (source target : String) (amount : Nat) :
    Allocations × Option AllocationError :=
  if a.balances source < amount then (a, some .insufficientBalance)
  else
    let b1 := Function.update a.balances source (a.balances source - amount)
    let b2 := Function.update b1 target ((b1 target + amount) % U64)
    ({ balances := b2, version := a.version + 1 }, none)

/-- Go `Allocations.ApplyTrade`: `cost := (price * quantity) / 10000` on
uint64 (the multiplication wraps), then the same flow as `Transfer`. -/
def Allocations.ApplyTrade (a : Allocations) (buyerAddr sellerAddr : String)
    (price quantity : Nat) : Allocations × Option AllocationError :=
  let cost := price * quantity % U64 / 10000
  if a.balances buyerAddr < cost then (a, some .insufficientBalance)
  else
    let b1 := Function.update a.balances buyerAddr (a.balances buyerAddr - cost)
    let b2 := Function.update b1 sellerAddr ((b1 sellerAddr + cost) % U64)
    ({ balances := b2, version := a.version + 1 }, none)

/-- Solidity `Allocation` (Types.sol): destination, token, uint256 amount. -/
structure SolAllocation where
  destination : String
  token : String
  amount : Nat
deriving DecidableEq, Repr

/-- Solidity `State` (Types.sol), restricted to the fields `adjudicate`
reads: version, allocations and the signature blobs (kept as opaque
strings).  `intent` and `data` are never inspected. -/
structure SolState where
  version : Nat
  allocations : List SolAllocation
  sigs : List String
deriving DecidableEq, Repr

/-- Solidity `Channel` (Types.sol). -/
structure SolChannel where
  participants : List String
  adjudicator : String
  challenge : Nat
  nonce : Nat
deriving DecidableEq, Repr

/-- Solidity `OrderbookAdjudicator._checkAllocationConservation`: false when
the two allocation arrays differ in length, otherwise compare the totals of
the `amount` fields.  The Solidity `uint256` sums are embedded as exact `Nat`
sums (checked arithmetic would revert, not wrap, and the summands are
64-entry-bounded channel allocations in practice). -/
def checkAllocationConservation (oldAlloc newAlloc : List SolAllocation) : Bool :=
  if oldAlloc.length ≠ newAlloc.length then false
  else (oldAlloc.map SolAllocation.amount).sum == (newAlloc.map SolAllocation.amount).sum

/-- Solidity `OrderbookAdjudicator.adjudicate`: with a non-empty proof list,
reject unless the version strictly increases past the last proof's and the
allocations conserve the total; in every case require exactly one signature
per configured participant. -/
def adjudicate (chan : SolChannel) (candidate : SolState) (proofs : List SolState) :
    Bool :=
  match proofs.getLast? with
  | some lastState =>
    if candidate.version ≤ lastState.version then false
    else if ¬ checkAllocationConservation lastState.allocations candidate.allocations then
      false
    else candidate.sigs.length == chan.participants.length
  | none => candidate.sigs.length == chan.participants.length

/-! ## Trade log (claim C5) -/

theorem Add_trades (h : TradeHistory) (t : Trade) :
    (h.Add t).trades =
      (h.trades ++ [t]).drop (h.trades.length + 1 - min (h.trades.length + 1) h.maxLen) ∧
      (h.Add t).maxLen = h.maxLen := by
  have hlen : (h.trades ++ [t]).length = h.trades.length + 1 := by simp
  unfold TradeHistory.Add
  dsimp only
  split
  next hgt =>
    refine ⟨?_, rfl⟩
    rw [hlen] at hgt
    dsimp only
    rw [hlen]
    congr 1
    omega
  next hngt =>
    refine ⟨?_, rfl⟩
    rw [hlen] at hngt
    have hmin : min (h.trades.length + 1) h.maxLen = h.trades.length + 1 := by omega
    dsimp only
    rw [hmin]
    simp

theorem addAll_trades (cap : Nat) (ts : List Trade) :
    (addAll cap ts).trades = ts.drop (ts.length - min ts.length cap) ∧
      (addAll cap ts).maxLen = cap := by
  induction ts using List.reverseRecOn with
  | nil => simp [addAll, NewTradeHistory]
  | append_singleton ts t ih =>
    have hfold : addAll cap (ts ++ [t]) = (addAll cap ts).Add t := by
      simp [addAll, List.foldl_append]
    obtain ⟨htr, hml⟩ := ih
    obtain ⟨hAtr, hAml⟩ := Add_trades (addAll cap ts) t
    have hk : ts.length - min ts.length cap ≤ ts.length := Nat.sub_le _ _
    refine ⟨?_, by rw [hfold, hAml, hml]⟩
    rw [hfold, hAtr, hml, htr, List.length_drop]
    rw [show ts.drop (ts.length - min ts.length cap) ++ [t] =
        (ts ++ [t]).drop (ts.length - min ts.length cap) from
      (List.drop_append_of_le_length hk).symm]
    rw [List.drop_drop]
    congr 1
    simp only [List.length_append, List.length_cons, List.length_nil]
    omega

/-- Claim C5 (corrected): for every capacity, every chronological sequence of
logged trades and every `n`, `TradeHistory.Recent n` returns the
`min n size` most recent trades, but in chronological order (most recent
last), i.e. the final segment of the logged sequence. -/
theorem c5_recent_is_chronological_suffix (cap : Nat) (ts : List Trade) (n : Nat) :
    (addAll cap ts).Recent n = ts.drop (ts.length - min n (min ts.length cap)) := by
  obtain ⟨htr, hml⟩ := addAll_trades cap ts
  unfold TradeHistory.Recent
  rw [htr]
  have hk : ts.length - min ts.length cap ≤ ts.length := Nat.sub_le _ _
  have hD : (ts.drop (ts.length - min ts.length cap)).length = min ts.length cap := by
    rw [List.length_drop]; omega
  rw [hD, List.drop_drop]
  rcases Nat.lt_or_ge (min ts.length cap) n with hlt | hge
  · simp only [hlt, if_pos, gt_iff_lt]
    congr 1
    omega
  · have : ¬ n > min ts.length cap := by omega
    simp only [this, if_neg, ite_false]
    congr 1
    omega

/-- Trade log entries used by the claim C5 counterexample. -/
def tA : Trade :=
  { MarketID := "m", OutcomeID := "YES", BuyOrderID := "b1", SellOrderID := "s1",
    BuyerID := "ua", SellerID := "ub", Price := 1, Quantity := 1 }

/-- Second, distinct trade log entry for the claim C5 counterexample. -/
def tB : Trade :=
  { MarketID := "m", OutcomeID := "YES", BuyOrderID := "b2", SellOrderID := "s2",
    BuyerID := "ua", SellerID := "ub", Price := 2, Quantity := 1 }

/-- Claim C5 counterexample: after logging `tA` then `tB` (capacity 1000, the
default), `Recent 2` does not return them most recent first — the claimed
reverse-chronological order `[tB, tA]` differs from the computed result
`[tA, tB]`. -/
theorem c5_recent_not_reverse_chronological :
    (addAll 1000 [tA, tB]).Recent 2 ≠ [tB, tA] ∧
      (addAll 1000 [tA, tB]).Recent 2 = [tA, tB] := by
  constructor
  · decide
  · decide

/-! ## Settlement adjudicator (claim C4) -/

/-- Claim C4 (corrected): `adjudicate` rejects the candidate if and only if
the proof list is non-empty and (the candidate's version does not exceed the
last proof's, or the two allocation lists differ in length, or their amount
totals differ), or the candidate's signature count differs from the channel's
participant count.  The length condition is the correction: the claim as
stated omits it. -/
theorem c4_adjudicate_reject_characterization (chan : SolChannel) (candidate : SolState)
    (proofs : List SolState) :
    adjudicate chan candidate proofs = false ↔
      (∃ lastState, proofs.getLast? = some lastState ∧
        (candidate.version ≤ lastState.version ∨
         candidate.allocations.length ≠ lastState.allocations.length ∨
         (candidate.allocations.map SolAllocation.amount).sum ≠
           (lastState.allocations.map SolAllocation.amount).sum)) ∨
      candidate.sigs.length ≠ chan.participants.length := by
  unfold adjudicate checkAllocationConservation
  cases hlast : proofs.getLast? with
  | none => simp [beq_eq_false_iff_ne]
  | some lastState =>
    dsimp only
    by_cases hv : candidate.version ≤ lastState.version
    · rw [if_pos hv]
      exact iff_of_true rfl (Or.inl ⟨lastState, rfl, Or.inl hv⟩)
    · rw [if_neg hv]
      by_cases hlen : lastState.allocations.length ≠ candidate.allocations.length
      · have hinner : (if lastState.allocations.length ≠ candidate.allocations.length
            then false
            else ((lastState.allocations.map SolAllocation.amount).sum ==
              (candidate.allocations.map SolAllocation.amount).sum)) = false :=
          if_pos hlen
        rw [hinner]
        exact iff_of_true (by simp) (Or.inl ⟨lastState, rfl, Or.inr (Or.inl (Ne.symm hlen))⟩)
      · push_neg at hlen
        by_cases hsum : (lastState.allocations.map SolAllocation.amount).sum =
            (candidate.allocations.map SolAllocation.amount).sum
        · have hinner : (if lastState.allocations.length ≠ candidate.allocations.length
              then false
              else ((lastState.allocations.map SolAllocation.amount).sum ==
                (candidate.allocations.map SolAllocation.amount).sum)) = true := by
            simp [hlen, hsum]
          rw [hinner]
          have houter : (if ¬((true : Bool) = true) then false
              else (candidate.sigs.length == chan.participants.length)) =
              (candidate.sigs.length == chan.participants.length) := by simp
          rw [houter, beq_eq_false_iff_ne]
          constructor
          · intro hne
            exact Or.inr hne
          · intro hcase
            rcases hcase with ⟨l2, hl2, hbad⟩ | hne
            · rw [Option.some.injEq] at hl2
              subst hl2
              rcases hbad with hbad | hbad | hbad
              · exact absurd hbad hv
              · exact absurd hlen.symm hbad
              · exact absurd hsum.symm hbad
            · exact hne
        · have hinner : (if lastState.allocations.length ≠ candidate.allocations.length
              then false
              else ((lastState.allocations.map SolAllocation.amount).sum ==
                (candidate.allocations.map SolAllocation.amount).sum)) = false := by
            simp [hlen, hsum]
          rw [hinner]
          exact iff_of_true (by simp)
            (Or.inl ⟨lastState, rfl, Or.inr (Or.inr fun he => hsum he.symm)⟩)

/-- Channel configuration with one participant, used by the claim C4
counterexample. -/
def chanC4 : SolChannel :=
  { participants := ["p1"], adjudicator := "adj", challenge := 0, nonce := 0 }

/-- Last proof state for the claim C4 counterexample: version 0, one
allocation totalling 10. -/
def lastC4 : SolState :=
  { version := 0, allocations := [⟨"a", "tok", 10⟩], sigs := [] }

/-- Candidate state for the claim C4 counterexample: strictly larger version,
two allocations with the same total 10, and one signature for the one
participant. -/
def candC4 : SolState :=
  { version := 1, allocations := [⟨"a", "tok", 5⟩, ⟨"b", "tok", 5⟩], sigs := ["sig"] }

/-- Claim C4 counterexample: the candidate has a strictly increasing version,
an unchanged allocation total and the right number of signatures — so the
claim as stated says it is accepted — yet `adjudicate` rejects it, because
the allocation count changed from 1 to 2. -/
theorem c4_accepted_by_claim_but_rejected :
    adjudicate chanC4 candC4 [lastC4] = false ∧
      ¬ candC4.version ≤ lastC4.version ∧
      (candC4.allocations.map SolAllocation.amount).sum =
        (lastC4.allocations.map SolAllocation.amount).sum ∧
      candC4.sigs.length = chanC4.participants.length := by
  refine ⟨?_, by decide, by decide, by decide⟩
  decide

/-! ## Market lifecycle (claim C6) -/

/-- The outcome/status coupling of a market record. -/
def MarketInv (m : MarketRec) : Prop := m.Outcome = none ↔ m.Status ≠ .resolved

/-- Admissible status movements: stay put, trading → locked, or
locked → resolved. -/
def validEdge (a b : MarketStatus) : Prop :=
  a = b ∨ (a = .trading ∧ b = .locked) ∨ (a = .locked ∧ b = .resolved)

theorem lockMarket_of_trading (m : MarketRec) (h : m.Status = .trading) :
    lockMarket m = .ok { m with Status := .locked } := by
  unfold lockMarket
  rw [if_neg (by simp [h])]

theorem lockMarket_of_not_trading (m : MarketRec) (h : m.Status ≠ .trading) :
    lockMarket m = .error .invalidTransition := by
  unfold lockMarket
  rw [if_pos h]

theorem resolveMarket_of_not_locked (m : MarketRec) (o : String)
    (h : m.Status ≠ .locked) : resolveMarket o m = .error .marketNotLocked := by
  unfold resolveMarket
  rw [if_pos h]

theorem resolveMarket_already (m : MarketRec) (o : String) (h1 : m.Status = .locked)
    (h2 : m.Outcome ≠ none) : resolveMarket o m = .error .alreadyResolved := by
  unfold resolveMarket
  rw [if_neg (by simp [h1]), if_pos h2]

theorem resolveMarket_bad_outcome (m : MarketRec) (o : String)
    (h1 : m.Status = .locked) (h2 : m.Outcome = none) (h3 : o ≠ "YES" ∧ o ≠ "NO") :
    resolveMarket o m = .error .invalidOutcome := by
  unfold resolveMarket
  rw [if_neg (by simp [h1]), if_neg (by simp [h2]), if_pos h3]

theorem resolveMarket_ok (m : MarketRec) (o : String) (h1 : m.Status = .locked)
    (h2 : m.Outcome = none) (h3 : ¬ (o ≠ "YES" ∧ o ≠ "NO")) :
    resolveMarket o m = .ok { Status := .resolved, Outcome := some o } := by
  unfold resolveMarket
  rw [if_neg (by simp [h1]), if_neg (by simp [h2]), if_neg h3]

theorem applyMOp_lock_ok (m : MarketRec) (m' : MarketRec)
    (h : lockMarket m = .ok m') : applyMOp m .lock = m' := by
  unfold applyMOp
  rw [h]

theorem applyMOp_lock_err (m : MarketRec) (e : MErr)
    (h : lockMarket m = .error e) : applyMOp m .lock = m := by
  unfold applyMOp
  rw [h]

theorem applyMOp_resolve_ok (m : MarketRec) (o : String) (m' : MarketRec)
    (h : resolveMarket o m = .ok m') : applyMOp m (.resolve o) = m' := by
  unfold applyMOp
  dsimp only
  rw [h]

theorem applyMOp_resolve_err (m : MarketRec) (o : String) (e : MErr)
    (h : resolveMarket o m = .error e) : applyMOp m (.resolve o) = m := by
  unfold applyMOp
  dsimp only
  rw [h]

theorem marketInv_applyMOp (m : MarketRec) (op : MOp) (hm : MarketInv m) :
    MarketInv (applyMOp m op) := by
  cases op with
  | lock =>
    by_cases h : m.Status = .trading
    · rw [applyMOp_lock_ok m _ (lockMarket_of_trading m h)]
      unfold MarketInv at *
      have hout : m.Outcome = none := hm.mpr (by rw [h]; intro hc; cases hc)
      simp [hout]
    · rw [applyMOp_lock_err m _ (lockMarket_of_not_trading m h)]
      exact hm
  | resolve o =>
    by_cases h1 : m.Status = .locked
    · by_cases h2 : m.Outcome = none
      · by_cases h3 : o ≠ "YES" ∧ o ≠ "NO"
        · rw [applyMOp_resolve_err m o _ (resolveMarket_bad_outcome m o h1 h2 h3)]
          exact hm
        · rw [applyMOp_resolve_ok m o _ (resolveMarket_ok m o h1 h2 h3)]
          unfold MarketInv
          simp
      · rw [applyMOp_resolve_err m o _ (resolveMarket_already m o h1 h2)]
        exact hm
    · rw [applyMOp_resolve_err m o _ (resolveMarket_of_not_locked m o h1)]
      exact hm

theorem runMOps_marketInv (ops : List MOp) :
    ∀ m : MarketRec, MarketInv m → MarketInv (runMOps ops m) := by
  induction ops with
  | nil =>
    intro m hm
    exact hm
  | cons op ops ih =>
    intro m hm
    have hstep : runMOps (op :: ops) m = runMOps ops (applyMOp m op) := rfl
    rw [hstep]
    exact ih _ (marketInv_applyMOp m op hm)

theorem applyMOp_validEdge (m : MarketRec) (op : MOp) :
    validEdge m.Status (applyMOp m op).Status := by
  cases op with
  | lock =>
    by_cases h : m.Status = .trading
    · rw [applyMOp_lock_ok m _ (lockMarket_of_trading m h)]
      exact Or.inr (Or.inl ⟨h, rfl⟩)
    · rw [applyMOp_lock_err m _ (lockMarket_of_not_trading m h)]
      exact Or.inl rfl
  | resolve o =>
    by_cases h1 : m.Status = .locked
    · by_cases h2 : m.Outcome = none
      · by_cases h3 : o ≠ "YES" ∧ o ≠ "NO"
        · rw [applyMOp_resolve_err m o _ (resolveMarket_bad_outcome m o h1 h2 h3)]
          exact Or.inl rfl
        · rw [applyMOp_resolve_ok m o _ (resolveMarket_ok m o h1 h2 h3)]
          exact Or.inr (Or.inr ⟨h1, rfl⟩)
      · rw [applyMOp_resolve_err m o _ (resolveMarket_already m o h1 h2)]
        exact Or.inl rfl
    · rw [applyMOp_resolve_err m o _ (resolveMarket_of_not_locked m o h1)]
      exact Or.inl rfl

theorem resolved_applyMOp_eq (m : MarketRec) (hm : m.Status = .resolved) (op : MOp) :
    applyMOp m op = m := by
  have ht : m.Status ≠ .trading := by rw [hm]; intro hc; cases hc
  have hl : m.Status ≠ .locked := by rw [hm]; intro hc; cases hc
  cases op with
  | lock => exact applyMOp_lock_err m _ (lockMarket_of_not_trading m ht)
  | resolve o => exact applyMOp_resolve_err m o _ (resolveMarket_of_not_locked m o hl)

/-- Claim C6 (confirmed): from creation (`TRADING`, nil outcome), under every
sequence of `Lock` and `Resolve` requests the status only ever moves along
TRADING → LOCKED → RESOLVED; `Lock` fails with `ErrInvalidTransition` exactly
when the status is not TRADING and `Resolve` fails with `ErrMarketNotLocked`
exactly when it is not LOCKED; a RESOLVED market is never mutated again; and
the outcome is nil exactly when the status is not RESOLVED. -/
theorem c6_market_lifecycle (ops : List MOp) :
    ((runMOps ops createMarket).Outcome = none ↔
        (runMOps ops createMarket).Status ≠ .resolved) ∧
      (∀ op, validEdge (runMOps ops createMarket).Status
        (applyMOp (runMOps ops createMarket) op).Status) ∧
      (lockMarket (runMOps ops createMarket) = .error .invalidTransition ↔
        (runMOps ops createMarket).Status ≠ .trading) ∧
      (∀ o, resolveMarket o (runMOps ops createMarket) = .error .marketNotLocked ↔
        (runMOps ops createMarket).Status ≠ .locked) ∧
      ((runMOps ops createMarket).Status = .resolved →
        ∀ op, applyMOp (runMOps ops createMarket) op = runMOps ops createMarket) := by
  set m := runMOps ops createMarket with hm
  refine ⟨?_, fun op => applyMOp_validEdge m op, ?_, ?_,
    fun hr op => resolved_applyMOp_eq m hr op⟩
  · exact runMOps_marketInv ops createMarket (by unfold MarketInv createMarket; simp)
  · constructor
    · intro herr hc
      rw [lockMarket_of_trading m hc] at herr
      cases herr
    · intro hne
      exact lockMarket_of_not_trading m hne
  · intro o
    constructor
    · intro herr hc
      by_cases h2 : m.Outcome = none
      · by_cases h3 : o ≠ "YES" ∧ o ≠ "NO"
        · rw [resolveMarket_bad_outcome m o hc h2 h3] at herr
          cases herr
        · rw [resolveMarket_ok m o hc h2 h3] at herr
          cases herr
      · rw [resolveMarket_already m o hc h2] at herr
        cases herr
    · intro hne
      exact resolveMarket_of_not_locked m o hne

/-- Closed instance of claim C6 at the request sequence lock; resolve YES;
lock. -/
theorem c6_market_lifecycle_witness :
    (runMOps [MOp.lock, MOp.resolve "YES", MOp.lock] createMarket).Outcome = none ↔
      (runMOps [MOp.lock, MOp.resolve "YES", MOp.lock] createMarket).Status ≠
        .resolved :=
  (c6_market_lifecycle [MOp.lock, MOp.resolve "YES", MOp.lock]).1

/-! ## Ledger admission (claim C1) -/

/-- Buy order used for the claim C1 failing input: price 1 basis point,
quantity 1, so the true cost is 1 basis point. -/
def oC1 : Order :=
  { ID := "o1", UserID := "u", MarketID := "m", OutcomeID := "YES", Side := "buy",
    Price := 1, Quantity := 1, FilledQty := 0, Status := "open", SequenceNum := 1 }

/-- Claim C1 failing input: with an all-zero ledger, the user's balance 0 is
strictly below `price * quantity = 1`, yet `ValidateOrder` admits the BUY
order, because it checks `balance < (price*quantity/10000)*10000` and the
integer division floors the requirement to 0. -/
theorem c1_validate_admits_underfunded_buy :
    NewPositionManager.ValidateOrder oC1 = .ok () ∧
      NewPositionManager.balances oC1.UserID < oC1.Price * oC1.Quantity := by
  constructor
  · rfl
  · decide

/-! ## Allocation state (claim C7) -/

theorem sum_split_singleton (f : String → Nat) (S : Finset String) (t : String)
    (ht : t ∈ S) : (∑ x ∈ S, f x) = f t + ∑ x ∈ S \ {t}, f x := by
  rw [← Finset.erase_eq]
  exact (Finset.add_sum_erase S f ht).symm

theorem transferBal_sum (f : String → Nat) (s t : String) (amt : Nat)
    (hle : amt ≤ f s) (S : Finset String) (hs : s ∈ S) (ht : t ∈ S) :
    (∑ x ∈ S, Function.update (Function.update f s (f s - amt)) t
        ((Function.update f s (f s - amt) t + amt) % U64) x) % U64 =
      (∑ x ∈ S, f x) % U64 ∧
      (Function.update f s (f s - amt) t + amt < U64 →
        (∑ x ∈ S, Function.update (Function.update f s (f s - amt)) t
          ((Function.update f s (f s - amt) t + amt) % U64) x) = ∑ x ∈ S, f x) := by
  by_cases hst : t = s
  · subst hst
    rw [Function.update_same, Function.update_idem]
    have hts : f t - amt + amt = f t := Nat.sub_add_cancel hle
    rw [hts, Finset.sum_update_of_mem ht]
    rw [sum_split_singleton f S t ht]
    refine ⟨Nat.mod_add_mod _ _ _, fun hlt => ?_⟩
    rw [Nat.mod_eq_of_lt hlt]
  · have hmem : s ∈ S \ {t} := by
      rw [← Finset.erase_eq]
      exact Finset.mem_erase.mpr ⟨fun h => hst h.symm, hs⟩
    rw [Function.update_noteq hst, Finset.sum_update_of_mem ht,
      Finset.sum_update_of_mem hmem]
    rw [sum_split_singleton f S t ht, sum_split_singleton f (S \ {t}) s hmem]
    constructor
    · unfold U64
      omega
    · intro hlt
      rw [Nat.mod_eq_of_lt hlt]
      omega

/-- Claim C7 (corrected): a failed `Transfer` (source balance below the
amount) or a failed `ApplyTrade` (buyer balance below the computed cost
`(price*quantity mod 2^64) / 10000`) returns the state unchanged with
`ErrInsufficientBalance`; a successful call reports no error, increments the
version by exactly 1, and preserves the sum of balances over any participant
set containing both parties modulo `2^64` — exactly, whenever the updated
recipient balance does not overflow uint64. -/
theorem c7_allocations_conservation (a : Allocations) (source target buyer seller : String)
    (amount price quantity : Nat) (S T : Finset String)
    (hs : source ∈ S) (ht : target ∈ S) (hb : buyer ∈ T) (hsl : seller ∈ T) :
    (a.balances source < amount →
      a.Transfer source target amount = (a, some .insufficientBalance)) ∧
    (amount ≤ a.balances source →
      (a.Transfer source target amount).2 = none ∧
      (a.Transfer source target amount).1.version = a.version + 1 ∧
      (∑ x ∈ S, (a.Transfer source target amount).1.balances x) % U64 =
        (∑ x ∈ S, a.balances x) % U64 ∧
      (Function.update a.balances source (a.balances source - amount) target + amount
          < U64 →
        (∑ x ∈ S, (a.Transfer source target amount).1.balances x) =
          ∑ x ∈ S, a.balances x)) ∧
    (a.balances buyer < price * quantity % U64 / 10000 →
      a.ApplyTrade buyer seller price quantity = (a, some .insufficientBalance)) ∧
    (price * quantity % U64 / 10000 ≤ a.balances buyer →
      (a.ApplyTrade buyer seller price quantity).2 = none ∧
      (a.ApplyTrade buyer seller price quantity).1.version = a.version + 1 ∧
      (∑ x ∈ T, (a.ApplyTrade buyer seller price quantity).1.balances x) % U64 =
        (∑ x ∈ T, a.balances x) % U64 ∧
      (Function.update a.balances buyer
          (a.balances buyer - price * quantity % U64 / 10000) seller +
            price * quantity % U64 / 10000 < U64 →
        (∑ x ∈ T, (a.ApplyTrade buyer seller price quantity).1.balances x) =
          ∑ x ∈ T, a.balances x)) := by
  refine ⟨?_, ?_, ?_, ?_⟩
  · intro h
    unfold Allocations.Transfer
    rw [if_pos h]
  · intro h
    have hnl : ¬ a.balances source < amount := Nat.not_lt.mpr h
    unfold Allocations.Transfer
    rw [if_neg hnl]
    obtain ⟨hmod, hexact⟩ := transferBal_sum a.balances source target amount h S hs ht
    exact ⟨rfl, rfl, hmod, hexact⟩
  · intro h
    unfold Allocations.ApplyTrade
    rw [if_pos h]
  · intro h
    have hnl : ¬ a.balances buyer < price * quantity % U64 / 10000 := Nat.not_lt.mpr h
    unfold Allocations.ApplyTrade
    rw [if_neg hnl]
    obtain ⟨hmod, hexact⟩ :=
      transferBal_sum a.balances buyer seller (price * quantity % U64 / 10000) h T hb hsl
    exact ⟨rfl, rfl, hmod, hexact⟩

/-- Channel allocation state used by the claim C7 counterexample: both
participants hold the maximal uint64 balance. -/
def allocC7 : Allocations :=
  NewAllocations (fun k => if k = "a" ∨ k = "b" then U64 - 1 else 0)

/-- Claim C7 counterexample: `Transfer a b 1` on `allocC7` succeeds, yet the
sum of the two participants' balances shrinks by `2^64` (the recipient's
uint64 addition wraps); and `ApplyTrade` with `price = quantity = 2^32`
succeeds on a zero balance although `(price * quantity) / 10000 > 0` — the
claim's failure condition reads the cost without the uint64 wrap. -/
theorem c7_transfer_overflow_counterexample :
    (allocC7.Transfer "a" "b" 1).2 = none ∧
      (allocC7.Transfer "a" "b" 1).1.balances "a" +
          (allocC7.Transfer "a" "b" 1).1.balances "b" ≠
        allocC7.balances "a" + allocC7.balances "b" ∧
      ((NewAllocations (fun _ => 0)).ApplyTrade "buyer" "seller" (2 ^ 32) (2 ^ 32)).2 =
        none ∧
      (NewAllocations (fun _ => 0)).balances "buyer" < 2 ^ 32 * 2 ^ 32 / 10000 := by
  refine ⟨?_, ?_, ?_, ?_⟩
  · decide
  · decide
  · decide
  · decide

/-- Closed instance of claim C7: a successful transfer of 3 from a balance of
5 reports no error. -/
theorem c7_allocations_conservation_witness :
    ((NewAllocations (fun _ => 5)).Transfer "a" "b" 3).2 = none :=
  ((c7_allocations_conservation (NewAllocations (fun _ => 5)) "a" "b" "a" "b" 3 1 1
      {"a", "b"} {"a", "b"} (by decide) (by decide) (by decide) (by decide)).2.1
    (by decide)).1

/-! ## Cancelled orders and matching (claims C2, C8) -/

/-- Scenario S4 resting order: SELL YES 10@5000. -/
def sellS4 : Order :=
  { ID := "s1", UserID := "alice", MarketID := "m", OutcomeID := "YES", Side := "sell",
    Price := 5000, Quantity := 10, FilledQty := 0, Status := "open", SequenceNum := 1 }

/-- Scenario S4 incoming order: BUY YES 10@5000, submitted after the sell was
cancelled. -/
def buyS4 : Order :=
  { ID := "b1", UserID := "bob", MarketID := "m", OutcomeID := "YES", Side := "buy",
    Price := 5000, Quantity := 10, FilledQty := 0, Status := "open", SequenceNum := 2 }

/-- Book after placing the S4 sell into an empty book. -/
def obS4a : Orderbook :=
  match NewOrderbook.PlaceOrder sellS4 with
  | .ok (_, ob) => ob
  | .error _ => NewOrderbook

/-- Book after cancelling the S4 sell. -/
def obS4b : Orderbook := (obS4a.CancelOrder "s1").1

/-- Trades produced by the S4 buy against the book holding only the
cancelled sell. -/
def s4Trades : List Trade :=
  match obS4b.PlaceOrder buyS4 with
  | .ok (ts, _) => ts
  | .error _ => []

/-- Claim C2 failing input (scenario S4): the sell rests, the cancel
succeeds, and the subsequent BUY 10@5000 emits one trade of quantity 10
against the cancelled order — not the zero trades the claim requires,
because `matchBuy` never checks the status of the ask it peeks. -/
theorem c2_cancelled_order_matched :
    (obS4a.CancelOrder "s1").2 = none ∧
      s4Trades.length = 1 ∧
      s4Trades.map Trade.Quantity = [10] ∧
      s4Trades.map Trade.SellOrderID = ["s1"] := by
  refine ⟨?_, ?_, ?_, ?_⟩
  · decide
  · decide
  · decide
  · decide

/-- Claim C8 failing input: in scenario S4 the resting order selected as
counterparty (the top of the ask heap at matching time) is the cancelled
order with remaining quantity 10 — not a live (non-cancelled, remaining > 0)
resting order as the claim requires. -/
theorem c8_selected_counterparty_not_live :
    (heapPeek obS4b.asks).map Order.Status = some StatusCancelled ∧
      (heapPeek obS4b.asks).map Order.RemainingQty = some 10 ∧
      (heapPeek obS4b.asks).map Order.ID = some "s1" ∧
      s4Trades.map Trade.SellOrderID = ["s1"] ∧
      s4Trades.map Trade.Quantity = [10] := by
  refine ⟨?_, ?_, ?_, ?_, ?_⟩
  · decide
  · decide
  · decide
  · decide
  · decide

/-! ## Validated flow that wraps a balance (claim C3) -/

/-- Ledger after the seller deposits 10000 basis points (1 USDC). -/
def pmC3a : PositionManager := NewPositionManager.Deposit "S" 10000

/-- Ledger after the seller mints one YES/NO share pair (cost 10000). -/
def pmC3b : PositionManager := (pmC3a.MintShares "S" "m" 1).1

/-- Resting order of the claim C3 scenario: SELL YES 1@1. -/
def oSellC3 : Order :=
  { ID := "s1", UserID := "S", MarketID := "m", OutcomeID := "YES", Side := "sell",
    Price := 1, Quantity := 1, FilledQty := 0, Status := "open", SequenceNum := 1 }

/-- Incoming order of the claim C3 scenario: BUY YES 1@1 from a user with a
zero balance. -/
def oBuyC3 : Order :=
  { ID := "b1", UserID := "B", MarketID := "m", OutcomeID := "YES", Side := "buy",
    Price := 1, Quantity := 1, FilledQty := 0, Status := "open", SequenceNum := 2 }

/-- Book holding the resting C3 sell. -/
def obC3 : Orderbook :=
  match NewOrderbook.PlaceOrder oSellC3 with
  | .ok (_, ob) => ob
  | .error _ => NewOrderbook

/-- Trades the C3 buy produces. -/
def tsC3 : List Trade :=
  match obC3.PlaceOrder oBuyC3 with
  | .ok (ts, _) => ts
  | .error _ => []

/-- Ledger after applying the C3 trades. -/
def pmC3c : PositionManager := tsC3.foldl PositionManager.ExecuteTrade pmC3b

/-- Claim C3 failing input: deposit, mint and both admission checks succeed,
matching emits one trade at price 1, quantity 1, and `ExecuteTrade` debits
cost 1 from the buyer's balance 0 — the debit exceeds the balance and the
uint64 subtraction wraps the buyer's balance to `2^64 - 1`. -/
theorem c3_validated_trade_wraps_balance :
    (pmC3a.MintShares "S" "m" 1).2 = none ∧
      pmC3b.ValidateOrder oSellC3 = .ok () ∧
      pmC3b.ValidateOrder oBuyC3 = .ok () ∧
      tsC3.map Trade.Price = [1] ∧
      tsC3.map Trade.Quantity = [1] ∧
      tsC3.map Trade.BuyerID = ["B"] ∧
      pmC3b.balances "B" = 0 ∧
      pmC3c.balances "B" = U64 - 1 := by
  refine ⟨?_, ?_, ?_, ?_, ?_, ?_, ?_, ?_⟩
  · decide
  · rfl
  · rfl
  · decide
  · decide
  · decide
  · decide
  · decide

/-! ## Heap infrastructure lemmas (for claims C9, C10) -/

theorem list_set_self (l : List Order) (n : Nat) (h : n < l.length) :
    l.set n l[n] = l := by
  apply List.ext_getElem
  · simp
  · intro i h1 h2
    rw [List.getElem_set]
    split <;> simp_all

theorem getD_eq_getElem (l : List Order) (i : Nat) (hi : i < l.length) :
    l.getD i default = l[i] := by
  rw [List.getD_eq_getElem?_getD, List.getElem?_eq_getElem hi]
  rfl

theorem cons_set_perm (t : List Order) (k : Nat) (hk : k < t.length) (x : Order) :
    List.Perm (t.get ⟨k, hk⟩ :: t.set k x) (x :: t) := by
  induction t generalizing k with
  | nil => cases hk
  | cons y r ih =>
    cases k with
    | zero => exact List.Perm.swap x y r
    | succ m =>
      have hm : m < r.length := Nat.lt_of_succ_lt_succ hk
      have step1 : List.Perm (r.get ⟨m, hm⟩ :: y :: r.set m x)
          (y :: r.get ⟨m, hm⟩ :: r.set m x) := List.Perm.swap y _ _
      have step2 : List.Perm (y :: r.get ⟨m, hm⟩ :: r.set m x) (y :: x :: r) :=
        List.Perm.cons y (ih m hm)
      have step3 : List.Perm (y :: x :: r) (x :: y :: r) := List.Perm.swap x y r
      exact (step1.trans step2).trans step3

theorem set_swap_perm (l : List Order) (i j : Nat) (hij : i < j) (hj : j < l.length) :
    List.Perm ((l.set i (l.get ⟨j, hj⟩)).set j (l.get ⟨i, Nat.lt_trans hij hj⟩)) l := by
  induction l generalizing i j with
  | nil => cases hj
  | cons y r ih =>
    cases i with
    | zero =>
      cases j with
      | zero => cases hij
      | succ k =>
        have hk : k < r.length := Nat.lt_of_succ_lt_succ hj
        have hset : ((y :: r).set 0 ((y :: r).get ⟨k + 1, hj⟩)).set (k + 1)
            ((y :: r).get ⟨0, Nat.lt_trans hij hj⟩) =
            r.get ⟨k, hk⟩ :: r.set k y := rfl
        rw [hset]
        exact cons_set_perm r k hk y
    | succ m =>
      cases j with
      | zero => cases hij
      | succ k =>
        have hmk : m < k := Nat.lt_of_succ_lt_succ hij
        have hk : k < r.length := Nat.lt_of_succ_lt_succ hj
        have hset : (((y :: r).set (m + 1) ((y :: r).get ⟨k + 1, hj⟩)).set (k + 1)
            ((y :: r).get ⟨m + 1, Nat.lt_trans hij hj⟩)) =
            y :: ((r.set m (r.get ⟨k, hk⟩)).set k (r.get ⟨m, Nat.lt_trans hmk hk⟩)) := rfl
        rw [hset]
        exact List.Perm.cons y (ih m k hmk hk)

theorem listSwap_perm (l : List Order) (i j : Nat) (hi : i < l.length)
    (hj : j < l.length) : List.Perm (listSwap l i j) l := by
  unfold listSwap
  rw [getD_eq_getElem l j hj, getD_eq_getElem l i hi]
  rcases Nat.lt_trichotomy i j with hij | rfl | hij
  · have h1 : l[j] = l.get ⟨j, hj⟩ := rfl
    have h2 : l[i] = l.get ⟨i, Nat.lt_trans hij hj⟩ := rfl
    rw [h1, h2]
    exact set_swap_perm l i j hij hj
  · rw [List.set_set]
    have h1 : l[i] = l.get ⟨i, hi⟩ := rfl
    rw [h1]
    have := list_set_self l i hi
    rw [List.get_eq_getElem, this]
  · rw [List.set_comm _ _ _ (Nat.ne_of_gt hij)]
    have h1 : l[i] = l.get ⟨i, hi⟩ := rfl
    have h2 : l[j] = l.get ⟨j, Nat.lt_trans hij hi⟩ := rfl
    rw [h1, h2]
    exact set_swap_perm l j i hij hi

theorem listSwap_length (l : List Order) (i j : Nat) :
    (listSwap l i j).length = l.length := by
  simp [listSwap]

theorem listSwap_getD_ne (l : List Order) (i j m : Nat) (d : Order)
    (hi : i ≠ m) (hj : j ≠ m) : (listSwap l i j).getD m d = l.getD m d := by
  unfold listSwap
  rw [List.getD_eq_getElem?_getD, List.getElem?_set_ne hj, List.getElem?_set_ne hi,
    List.getD_eq_getElem?_getD]

theorem getD_set_self (l : List Order) (n : Nat) (v d : Order) (h : n < l.length) :
    (l.set n v).getD n d = v := by
  rw [List.getD_eq_getElem?_getD, List.getElem?_set_self (by simpa using h)]
  rfl

theorem upGo_perm (isMax : Bool) (fuel : Nat) :
    ∀ (l : List Order) (j : Nat), j < l.length →
      List.Perm (upGo isMax fuel l j) l := by
  induction fuel with
  | zero =>
    intro l j _
    exact List.Perm.refl l
  | succ fuel ih =>
    intro l j hj
    rw [upGo]
    by_cases hc : (j - 1) / 2 = j ∨ ¬ heapLess isMax l j ((j - 1) / 2)
    · rw [if_pos hc]
    · rw [if_neg hc]
      push_neg at hc
      obtain ⟨hne, _⟩ := hc
      have hj0 : j ≠ 0 := by
        intro h0
        exact hne (by rw [h0])
      have hilt : (j - 1) / 2 < j := by omega
      have hi : (j - 1) / 2 < l.length := Nat.lt_trans hilt hj
      have hlen : (listSwap l ((j - 1) / 2) j).length = l.length := listSwap_length l _ j
      exact (ih (listSwap l ((j - 1) / 2) j) ((j - 1) / 2)
          (by rw [hlen]; exact hi)).trans (listSwap_perm l _ j hi hj)

theorem downGo_perm (isMax : Bool) (fuel : Nat) :
    ∀ (l : List Order) (i n : Nat), n ≤ l.length →
      List.Perm (downGo isMax fuel l i n) l := by
  induction fuel with
  | zero =>
    intro l i n _
    exact List.Perm.refl l
  | succ fuel ih =>
    intro l i n hn
    rw [downGo]
    by_cases hc : 2 * i + 1 ≥ n
    · rw [if_pos hc]
    · rw [if_neg hc]
      push_neg at hc
      set j := if 2 * i + 2 < n ∧ heapLess isMax l (2 * i + 2) (2 * i + 1)
        then 2 * i + 2 else 2 * i + 1 with hjdef
      by_cases hless : heapLess isMax l j i
      · rw [if_pos hless]
        have hjn : j < n := by
          rw [hjdef]
          split
          · next hcase => exact hcase.1
          · exact hc
        have hin : i < n := by omega
        have hlen : (listSwap l i j).length = l.length := listSwap_length l i j
        exact (ih (listSwap l i j) j n (by rw [hlen]; exact hn)).trans
          (listSwap_perm l i j (Nat.lt_of_lt_of_le hin hn) (Nat.lt_of_lt_of_le hjn hn))
      · rw [if_neg hless]

theorem downGo_getD_ge (isMax : Bool) (fuel : Nat) :
    ∀ (l : List Order) (i n m : Nat) (d : Order), n ≤ m →
      (downGo isMax fuel l i n).getD m d = l.getD m d := by
  induction fuel with
  | zero =>
    intro l i n m d _
    rfl
  | succ fuel ih =>
    intro l i n m d hm
    rw [downGo]
    by_cases hc : 2 * i + 1 ≥ n
    · rw [if_pos hc]
    · rw [if_neg hc]
      push_neg at hc
      set j := if 2 * i + 2 < n ∧ heapLess isMax l (2 * i + 2) (2 * i + 1)
        then 2 * i + 2 else 2 * i + 1 with hjdef
      by_cases hless : heapLess isMax l j i
      · rw [if_pos hless]
        have hjn : j < n := by
          rw [hjdef]
          split
          · next hcase => exact hcase.1
          · exact hc
        have hin : i < n := by omega
        rw [ih (listSwap l i j) j n m d hm]
        exact listSwap_getD_ne l i j m d (by omega) (by omega)
      · rw [if_neg hless]

theorem heapPush_perm (h : OrderHeap) (o : Order) :
    List.Perm (heapPush h o).orders (h.orders ++ [o]) := by
  unfold heapPush
  exact upGo_perm h.isMax (h.orders ++ [o]).length (h.orders ++ [o])
    ((h.orders ++ [o]).length - 1) (by simp)

theorem heapPop_perm (h : OrderHeap) (x : Order) (rest : List Order)
    (hx : h.orders = x :: rest) : List.Perm (heapPop h).orders rest := by
  unfold heapPop
  rw [hx]
  set n := (x :: rest).length - 1 with hn
  have hnr : n = rest.length := by simp [hn]
  set l1 := listSwap (x :: rest) 0 n with hl1
  have hl1len : l1.length = rest.length + 1 := by
    rw [hl1, listSwap_length]
    simp
  set l2 := downGo h.isMax l1.length l1 0 n with hl2
  have hperm21 : List.Perm l2 l1 :=
    downGo_perm h.isMax l1.length l1 0 n (by omega)
  have hperm1 : List.Perm l1 (x :: rest) :=
    listSwap_perm (x :: rest) 0 n (by simp) (by simp [hnr])
  have hl2len : l2.length = rest.length + 1 := by
    rw [hperm21.length_eq, hl1len]
  have hlast1 : l1.getD n x = x := by
    rw [hl1]
    unfold listSwap
    rw [getD_set_self _ n _ x (by simp [hnr]), List.getD_eq_getElem?_getD]
    simp
  have hlast2 : l2.getD n x = x := by
    rw [hl2, downGo_getD_ge h.isMax l1.length l1 0 n n x (Nat.le_refl n), hlast1]
  have hne : l2 ≠ [] := by
    intro hcase
    rw [hcase] at hl2len
    simp at hl2len
  have hsplit : l2.dropLast ++ [x] = l2 := by
    have hgl : l2.getLast hne = x := by
      rw [List.getLast_eq_getElem]
      have : l2.getD (l2.length - 1) x = x := by
        rw [hl2len]
        simpa [hnr] using hlast2
      rw [List.getD_eq_getElem?_getD, List.getElem?_eq_getElem (by omega)] at this
      simpa using this
    rw [← hgl]
    exact List.dropLast_append_getLast hne
  have hfinal : List.Perm (x :: l2.dropLast) (x :: rest) := by
    have h1 : List.Perm (l2.dropLast ++ [x]) (x :: l2.dropLast) :=
      List.perm_append_singleton x l2.dropLast
    have h2 : List.Perm (l2.dropLast ++ [x]) (x :: rest) := by
      rw [hsplit]
      exact hperm21.trans hperm1
    exact h1.symm.trans h2
  exact hfinal.cons_inv

@[simp]
theorem Fill_ID (o : Order) (q : Nat) : (o.Fill q).ID = o.ID := rfl

@[simp]
theorem Fill_Price (o : Order) (q : Nat) : (o.Fill q).Price = o.Price := rfl

@[simp]
theorem Fill_UserID (o : Order) (q : Nat) : (o.Fill q).UserID = o.UserID := rfl

@[simp]
theorem Fill_Quantity (o : Order) (q : Nat) : (o.Fill q).Quantity = o.Quantity := rfl

@[simp]
theorem Fill_FilledQty (o : Order) (q : Nat) :
    (o.Fill q).FilledQty = o.FilledQty + q := rfl

theorem Fill_RemainingQty (o : Order) (q : Nat) :
    (o.Fill q).RemainingQty = o.RemainingQty - q := by
  unfold Order.RemainingQty Order.Fill
  dsimp only
  omega

@[simp]
theorem sumQty_nil : sumQty [] = 0 := rfl

@[simp]
theorem sumQty_cons (t : Trade) (ts : List Trade) :
    sumQty (t :: ts) = t.Quantity + sumQty ts := by
  unfold sumQty
  simp

theorem matchBuyGo_rem_zero (fuel : Nat) (buy : Order) (asks : OrderHeap)
    (ids : List String) (h : buy.RemainingQty = 0) :
    matchBuyGo fuel buy asks ids = ([], buy, asks, ids) := by
  cases fuel with
  | zero => rfl
  | succ fuel =>
    rw [matchBuyGo]
    rw [if_neg (by omega)]

theorem matchSellGo_rem_zero (fuel : Nat) (sell : Order) (bids : OrderHeap)
    (ids : List String) (h : sell.RemainingQty = 0) :
    matchSellGo fuel sell bids ids = ([], sell, bids, ids) := by
  cases fuel with
  | zero => rfl
  | succ fuel =>
    rw [matchSellGo]
    rw [if_neg (by omega)]

theorem heapPeek_mem (h : OrderHeap) (o : Order) (hp : heapPeek h = some o) :
    ∃ rest, h.orders = o :: rest := by
  unfold heapPeek at hp
  cases hl : h.orders with
  | nil => rw [hl] at hp; cases hp
  | cons y t =>
    rw [hl] at hp
    simp at hp
    exact ⟨t, by rw [hp]⟩

theorem matchBuyGo_trades_spec (fuel : Nat) :
    ∀ (buy : Order) (asks : OrderHeap) (ids : List String) (ts : List Trade)
      (b' : Order) (a' : OrderHeap) (ids' : List String),
      matchBuyGo fuel buy asks ids = (ts, b', a', ids') →
      ∀ i (hi : i < ts.length),
        ∃ a, a ∈ asks.orders ∧
          (ts.get ⟨i, hi⟩).SellOrderID = a.ID ∧
          (ts.get ⟨i, hi⟩).SellerID = a.UserID ∧
          (ts.get ⟨i, hi⟩).Price = a.Price ∧
          (ts.get ⟨i, hi⟩).BuyOrderID = buy.ID ∧
          (ts.get ⟨i, hi⟩).BuyerID = buy.UserID ∧
          a.Price ≤ buy.Price ∧
          (ts.get ⟨i, hi⟩).Quantity =
            min (buy.RemainingQty - sumQty (ts.take i)) a.RemainingQty := by
  induction fuel with
  | zero =>
    intro buy asks ids ts b' a' ids' heq i hi
    rw [matchBuyGo] at heq
    injection heq with h1 h2
    subst h1
    cases hi
  | succ fuel ih =>
    intro buy asks ids ts b' a' ids' heq i hi
    rw [matchBuyGo] at heq
    by_cases hcond : 0 < asks.orders.length ∧ 0 < buy.RemainingQty
    case neg =>
      rw [if_neg hcond] at heq
      injection heq with h1 h2
      subst h1
      cases hi
    case pos =>
      rw [if_pos hcond] at heq
      cases hpeek : heapPeek asks with
      | none =>
        rw [hpeek] at heq
        injection heq with h1 h2
        subst h1
        cases hi
      | some bestAsk =>
        rw [hpeek] at heq
        dsimp only at heq
        by_cases hprice : buy.Price < bestAsk.Price
        · rw [if_pos hprice] at heq
          injection heq with h1 h2
          subst h1
          cases hi
        · rw [if_neg hprice] at heq
          set q := min buy.RemainingQty bestAsk.RemainingQty with hq
          set buy2 := buy.Fill q with hbuy2
          set ask2 := bestAsk.Fill q with hask2
          set asks1 : OrderHeap :=
            { orders := asks.orders.set 0 ask2, isMax := asks.isMax } with hasks1
          obtain ⟨rest, hrest⟩ := heapPeek_mem asks bestAsk hpeek
          by_cases hrem : ask2.RemainingQty = 0
          · rw [if_pos hrem] at heq
            rcases hr : matchBuyGo fuel buy2 (heapPop asks1) (ids.erase ask2.ID) with
              ⟨ts0, b0, a0, i0⟩
            rw [hr] at heq
            dsimp only at heq
            injection heq with h1 h2
            subst h1
            cases i with
            | zero =>
              refine ⟨bestAsk, (by rw [hrest]; exact List.mem_cons_self _ _),
                ?_, ?_, ?_, ?_, ?_, ?_, ?_⟩
              · simp [NewTrade, hask2]
              · simp [NewTrade, hask2]
              · simp [NewTrade]
              · simp [NewTrade, hbuy2]
              · simp [NewTrade, hbuy2]
              · exact Nat.le_of_not_lt hprice
              · simp [NewTrade, hq]
            | succ i' =>
              have hi' : i' < ts0.length := by
                simpa using Nat.lt_of_succ_lt_succ hi
              obtain ⟨a, hamem, hsid, hsuid, hpr, hbid, hbuid, hple, hqty⟩ :=
                ih buy2 (heapPop asks1) (ids.erase ask2.ID) ts0 b0 a0 i0 hr i' hi'
              have hset : asks1.orders = ask2 :: rest := by
                rw [hasks1]
                dsimp only
                rw [hrest]
                rfl
              have hpop : List.Perm (heapPop asks1).orders rest :=
                heapPop_perm asks1 ask2 rest hset
              refine ⟨a, (by
                rw [hrest]
                exact List.mem_cons_of_mem _ (hpop.mem_iff.mp hamem)),
                ?_, ?_, ?_, ?_, ?_, ?_, ?_⟩
              · simpa using hsid
              · simpa using hsuid
              · simpa using hpr
              · simpa [hbuy2] using hbid
              · simpa [hbuy2] using hbuid
              · simpa [hbuy2] using hple
              · have hrem2 : buy2.RemainingQty = buy.RemainingQty - q := by
                  rw [hbuy2, Fill_RemainingQty]
                have htake : (NewTrade buy2 ask2 bestAsk.Price q :: ts0).take (i' + 1) =
                    NewTrade buy2 ask2 bestAsk.Price q :: ts0.take i' := rfl
                have hget : ((NewTrade buy2 ask2 bestAsk.Price q :: ts0).get
                    ⟨i' + 1, hi⟩) = ts0.get ⟨i', hi'⟩ := rfl
                rw [hget, htake, sumQty_cons]
                have hqt : (NewTrade buy2 ask2 bestAsk.Price q).Quantity = q := rfl
                rw [hqt]
                rw [hqty, hrem2]
                congr 1
                omega
          · rw [if_neg hrem] at heq
            have hq0 : buy2.RemainingQty = 0 := by
              have h1 : ask2.RemainingQty = bestAsk.RemainingQty - q := by
                rw [hask2, Fill_RemainingQty]
              have h2 : buy2.RemainingQty = buy.RemainingQty - q := by
                rw [hbuy2, Fill_RemainingQty]
              rw [h1] at hrem
              rw [h2, hq]
              omega
            rw [matchBuyGo_rem_zero fuel buy2 asks1 ids hq0] at heq
            dsimp only at heq
            injection heq with h1 h2
            subst h1
            cases i with
            | zero =>
              refine ⟨bestAsk, (by rw [hrest]; exact List.mem_cons_self _ _),
                ?_, ?_, ?_, ?_, ?_, ?_, ?_⟩
              · simp [NewTrade, hask2]
              · simp [NewTrade, hask2]
              · simp [NewTrade]
              · simp [NewTrade, hbuy2]
              · simp [NewTrade, hbuy2]
              · exact Nat.le_of_not_lt hprice
              · simp [NewTrade, hq]
            | succ i' =>
              exact absurd hi (by simp)

theorem matchSellGo_trades_spec (fuel : Nat) :
    ∀ (sell : Order) (bids : OrderHeap) (ids : List String) (ts : List Trade)
      (s' : Order) (b' : OrderHeap) (ids' : List String),
      matchSellGo fuel sell bids ids = (ts, s', b', ids') →
      ∀ i (hi : i < ts.length),
        ∃ b, b ∈ bids.orders ∧
          (ts.get ⟨i, hi⟩).BuyOrderID = b.ID ∧
          (ts.get ⟨i, hi⟩).BuyerID = b.UserID ∧
          (ts.get ⟨i, hi⟩).Price = b.Price ∧
          (ts.get ⟨i, hi⟩).SellOrderID = sell.ID ∧
          (ts.get ⟨i, hi⟩).SellerID = sell.UserID ∧
          sell.Price ≤ b.Price ∧
          (ts.get ⟨i, hi⟩).Quantity =
            min (sell.RemainingQty - sumQty (ts.take i)) b.RemainingQty := by
  induction fuel with
  | zero =>
    intro sell bids ids ts s' b' ids' heq i hi
    rw [matchSellGo] at heq
    injection heq with h1 h2
    subst h1
    cases hi
  | succ fuel ih =>
    intro sell bids ids ts s' b' ids' heq i hi
    rw [matchSellGo] at heq
    by_cases hcond : 0 < bids.orders.length ∧ 0 < sell.RemainingQty
    case neg =>
      rw [if_neg hcond] at heq
      injection heq with h1 h2
      subst h1
      cases hi
    case pos =>
      rw [if_pos hcond] at heq
      cases hpeek : heapPeek bids with
      | none =>
        rw [hpeek] at heq
        injection heq with h1 h2
        subst h1
        cases hi
      | some bestBid =>
        rw [hpeek] at heq
        dsimp only at heq
        by_cases hprice : sell.Price > bestBid.Price
        · rw [if_pos hprice] at heq
          injection heq with h1 h2
          subst h1
          cases hi
        · rw [if_neg hprice] at heq
          set q := min sell.RemainingQty bestBid.RemainingQty with hq
          set sell2 := sell.Fill q with hsell2
          set bid2 := bestBid.Fill q with hbid2
          set bids1 : OrderHeap :=
            { orders := bids.orders.set 0 bid2, isMax := bids.isMax } with hbids1
          obtain ⟨rest, hrest⟩ := heapPeek_mem bids bestBid hpeek
          by_cases hrem : bid2.RemainingQty = 0
          · rw [if_pos hrem] at heq
            rcases hr : matchSellGo fuel sell2 (heapPop bids1) (ids.erase bid2.ID) with
              ⟨ts0, s0, b0, i0⟩
            rw [hr] at heq
            dsimp only at heq
            injection heq with h1 h2
            subst h1
            cases i with
            | zero =>
              refine ⟨bestBid, (by rw [hrest]; exact List.mem_cons_self _ _),
                ?_, ?_, ?_, ?_, ?_, ?_, ?_⟩
              · simp [NewTrade, hbid2]
              · simp [NewTrade, hbid2]
              · simp [NewTrade]
              · simp [NewTrade, hsell2]
              · simp [NewTrade, hsell2]
              · exact Nat.le_of_not_lt hprice
              · simp [NewTrade, hq]
            | succ i' =>
              have hi' : i' < ts0.length := by
                simpa using Nat.lt_of_succ_lt_succ hi
              obtain ⟨b, hbmem, hbid, hbuid, hpr, hsid, hsuid, hple, hqty⟩ :=
                ih sell2 (heapPop bids1) (ids.erase bid2.ID) ts0 s0 b0 i0 hr i' hi'
              have hset : bids1.orders = bid2 :: rest := by
                rw [hbids1]
                dsimp only
                rw [hrest]
                rfl
              have hpop : List.Perm (heapPop bids1).orders rest :=
                heapPop_perm bids1 bid2 rest hset
              refine ⟨b, (by
                rw [hrest]
                exact List.mem_cons_of_mem _ (hpop.mem_iff.mp hbmem)),
                ?_, ?_, ?_, ?_, ?_, ?_, ?_⟩
              · simpa using hbid
              · simpa using hbuid
              · simpa using hpr
              · simpa [hsell2] using hsid
              · simpa [hsell2] using hsuid
              · simpa [hsell2] using hple
              · have hrem2 : sell2.RemainingQty = sell.RemainingQty - q := by
                  rw [hsell2, Fill_RemainingQty]
                have htake : (NewTrade bid2 sell2 bestBid.Price q :: ts0).take (i' + 1) =
                    NewTrade bid2 sell2 bestBid.Price q :: ts0.take i' := rfl
                have hget : ((NewTrade bid2 sell2 bestBid.Price q :: ts0).get
                    ⟨i' + 1, hi⟩) = ts0.get ⟨i', hi'⟩ := rfl
                rw [hget, htake, sumQty_cons]
                have hqt : (NewTrade bid2 sell2 bestBid.Price q).Quantity = q := rfl
                rw [hqt]
                rw [hqty, hrem2]
                congr 1
                omega
          · rw [if_neg hrem] at heq
            have hq0 : sell2.RemainingQty = 0 := by
              have h1 : bid2.RemainingQty = bestBid.RemainingQty - q := by
                rw [hbid2, Fill_RemainingQty]
              have h2 : sell2.RemainingQty = sell.RemainingQty - q := by
                rw [hsell2, Fill_RemainingQty]
              rw [h1] at hrem
              rw [h2, hq]
              omega
            rw [matchSellGo_rem_zero fuel sell2 bids1 ids hq0] at heq
            dsimp only at heq
            injection heq with h1 h2
            subst h1
            cases i with
            | zero =>
              refine ⟨bestBid, (by rw [hrest]; exact List.mem_cons_self _ _),
                ?_, ?_, ?_, ?_, ?_, ?_, ?_⟩
              · simp [NewTrade, hbid2]
              · simp [NewTrade, hbid2]
              · simp [NewTrade]
              · simp [NewTrade, hsell2]
              · simp [NewTrade, hsell2]
              · exact Nat.le_of_not_lt hprice
              · simp [NewTrade, hq]
            | succ i' =>
              exact absurd hi (by simp)

/-- Claim C9 (confirmed): every trade emitted by `PlaceOrder` carries the
resting counterparty's order id and executes at that resting order's price
(which price-compatibility bounds by the incoming order's limit), and its
quantity is the minimum of the incoming order's remaining quantity at that
step (the initial remainder less the quantities of the earlier trades of the
same call) and the resting order's remaining quantity. -/
theorem c9_execution_price_and_quantity (ob : Orderbook) (order : Order)
    (trades : List Trade) (ob' : Orderbook)
    (hok : ob.PlaceOrder order = .ok (trades, ob')) :
    (order.IsBuy = true → ∀ i (hi : i < trades.length),
      ∃ a, a ∈ ob.asks.orders ∧
        (trades.get ⟨i, hi⟩).SellOrderID = a.ID ∧
        (trades.get ⟨i, hi⟩).SellerID = a.UserID ∧
        (trades.get ⟨i, hi⟩).Price = a.Price ∧
        (trades.get ⟨i, hi⟩).BuyOrderID = order.ID ∧
        (trades.get ⟨i, hi⟩).BuyerID = order.UserID ∧
        a.Price ≤ order.Price ∧
        (trades.get ⟨i, hi⟩).Quantity =
          min (order.RemainingQty - sumQty (trades.take i)) a.RemainingQty) ∧
    (order.IsBuy = false → ∀ i (hi : i < trades.length),
      ∃ b, b ∈ ob.bids.orders ∧
        (trades.get ⟨i, hi⟩).BuyOrderID = b.ID ∧
        (trades.get ⟨i, hi⟩).BuyerID = b.UserID ∧
        (trades.get ⟨i, hi⟩).Price = b.Price ∧
        (trades.get ⟨i, hi⟩).SellOrderID = order.ID ∧
        (trades.get ⟨i, hi⟩).SellerID = order.UserID ∧
        order.Price ≤ b.Price ∧
        (trades.get ⟨i, hi⟩).Quantity =
          min (order.RemainingQty - sumQty (trades.take i)) b.RemainingQty) := by
  unfold Orderbook.PlaceOrder at hok
  by_cases hp : order.Price > 10000
  · rw [if_pos hp] at hok
    simp at hok
  · rw [if_neg hp] at hok
    by_cases hq : order.Quantity = 0
    · rw [if_pos hq] at hok
      simp at hok
    · rw [if_neg hq] at hok
      by_cases hside : order.IsBuy = true
      · rw [if_pos hside] at hok
        rcases hr : matchBuyGo (ob.asks.orders.length + 2) order ob.asks ob.ids with
          ⟨ts0, b0, a0, i0⟩
        rw [hr] at hok
        dsimp only at hok
        have hts : ts0 = trades := by
          by_cases hpush : 0 < b0.RemainingQty ∧ b0.Status ≠ StatusCancelled
          · rw [if_pos hpush] at hok
            simp only [Except.ok.injEq, Prod.mk.injEq] at hok
            exact hok.1
          · rw [if_neg hpush] at hok
            simp only [Except.ok.injEq, Prod.mk.injEq] at hok
            exact hok.1
        subst hts
        refine ⟨fun _ i hi => ?_, fun hfalse => absurd hside (by simp [hfalse])⟩
        exact matchBuyGo_trades_spec (ob.asks.orders.length + 2) order ob.asks ob.ids
          ts0 b0 a0 i0 hr i hi
      · rw [if_neg hside] at hok
        rcases hr : matchSellGo (ob.bids.orders.length + 2) order ob.bids ob.ids with
          ⟨ts0, s0, b0, i0⟩
        rw [hr] at hok
        dsimp only at hok
        have hts : ts0 = trades := by
          by_cases hpush : 0 < s0.RemainingQty ∧ s0.Status ≠ StatusCancelled
          · rw [if_pos hpush] at hok
            simp only [Except.ok.injEq, Prod.mk.injEq] at hok
            exact hok.1
          · rw [if_neg hpush] at hok
            simp only [Except.ok.injEq, Prod.mk.injEq] at hok
            exact hok.1
        subst hts
        refine ⟨fun htrue => absurd htrue hside, fun _ i hi => ?_⟩
        exact matchSellGo_trades_spec (ob.bids.orders.length + 2) order ob.bids ob.ids
          ts0 s0 b0 i0 hr i hi

theorem Fill_status_ne_cancelled_of_rem (o : Order) (q : Nat) (h1 : 0 < q)
    (h2 : (o.Fill q).RemainingQty ≠ 0) : (o.Fill q).Status = StatusPartialFill := by
  unfold Order.Fill Order.RemainingQty at *
  dsimp only at *
  have hlt : ¬ o.FilledQty + q ≥ o.Quantity := by omega
  rw [if_neg hlt, if_pos (by omega)]

theorem matchBuyGo_accounting (fuel : Nat) :
    ∀ (buy : Order) (asks : OrderHeap) (ids : List String) (ts : List Trade)
      (b' : Order) (a' : OrderHeap) (ids' : List String),
      matchBuyGo fuel buy asks ids = (ts, b', a', ids') →
      ids' ⊆ ids ∧ b'.ID = buy.ID ∧ b'.Quantity = buy.Quantity ∧
        b'.FilledQty = buy.FilledQty + sumQty ts ∧ sumQty ts ≤ buy.RemainingQty := by
  induction fuel with
  | zero =>
    intro buy asks ids ts b' a' ids' heq
    injection heq with h1 h2
    injection h2 with h2a h2b
    injection h2b with h2b h2c
    subst h1
    subst h2a
    subst h2c
    simp
  | succ fuel ih =>
    intro buy asks ids ts b' a' ids' heq
    rw [matchBuyGo] at heq
    by_cases hcond : 0 < asks.orders.length ∧ 0 < buy.RemainingQty
    case neg =>
      rw [if_neg hcond] at heq
      injection heq with h1 h2
      injection h2 with h2a h2b
      injection h2b with h2b h2c
      subst h1
      subst h2a
      subst h2c
      simp
    case pos =>
      rw [if_pos hcond] at heq
      cases hpeek : heapPeek asks with
      | none =>
        rw [hpeek] at heq
        injection heq with h1 h2
        injection h2 with h2a h2b
        injection h2b with h2b h2c
        subst h1
        subst h2a
        subst h2c
        simp
      | some bestAsk =>
        rw [hpeek] at heq
        dsimp only at heq
        by_cases hprice : buy.Price < bestAsk.Price
        · rw [if_pos hprice] at heq
          injection heq with h1 h2
          injection h2 with h2a h2b
          injection h2b with h2b h2c
          subst h1
          subst h2a
          subst h2c
          simp
        · rw [if_neg hprice] at heq
          set q := min buy.RemainingQty bestAsk.RemainingQty with hq
          set buy2 := buy.Fill q with hbuy2
          set ask2 := bestAsk.Fill q with hask2
          set asks1 : OrderHeap :=
            { orders := asks.orders.set 0 ask2, isMax := asks.isMax } with hasks1
          have hqle : q ≤ buy.RemainingQty := by rw [hq]; omega
          have hb2 : buy2.RemainingQty = buy.RemainingQty - q := by
            rw [hbuy2, Fill_RemainingQty]
          by_cases hrem : ask2.RemainingQty = 0
          · rw [if_pos hrem] at heq
            rcases hr : matchBuyGo fuel buy2 (heapPop asks1) (ids.erase ask2.ID) with
              ⟨ts0, b0, a0, i0⟩
            rw [hr] at heq
            dsimp only at heq
            injection heq with h1 h2
            injection h2 with h2a h2b
            injection h2b with h2b h2c
            subst h1
            subst h2a
            subst h2c
            obtain ⟨hsub, hid, hqt, hfq, hsle⟩ := ih buy2 (heapPop asks1)
              (ids.erase ask2.ID) ts0 b0 a0 i0 hr
            refine ⟨hsub.trans (List.erase_subset ..), ?_, ?_, ?_, ?_⟩
            · rw [hid, hbuy2]
              simp
            · rw [hqt, hbuy2]
              simp
            · rw [sumQty_cons, hfq, hbuy2]
              have : (NewTrade buy2 ask2 bestAsk.Price q).Quantity = q := rfl
              rw [this]
              simp
              omega
            · rw [sumQty_cons]
              have : (NewTrade buy2 ask2 bestAsk.Price q).Quantity = q := rfl
              rw [this]
              rw [hb2] at hsle
              omega
          · rw [if_neg hrem] at heq
            have hq0 : buy2.RemainingQty = 0 := by
              have h1 : ask2.RemainingQty = bestAsk.RemainingQty - q := by
                rw [hask2, Fill_RemainingQty]
              rw [h1] at hrem
              rw [hb2, hq]
              omega
            rw [matchBuyGo_rem_zero fuel buy2 asks1 ids hq0] at heq
            dsimp only at heq
            injection heq with h1 h2
            injection h2 with h2a h2b
            injection h2b with h2b h2c
            subst h1
            subst h2a
            subst h2c
            refine ⟨List.Subset.refl ids, ?_, ?_, ?_, ?_⟩
            · rw [hbuy2]
              simp
            · rw [hbuy2]
              simp
            · rw [sumQty_cons, hbuy2]
              have : (NewTrade buy2 ask2 bestAsk.Price q).Quantity = q := rfl
              rw [this]
              simp
            · rw [sumQty_cons]
              have : (NewTrade buy2 ask2 bestAsk.Price q).Quantity = q := rfl
              rw [this]
              simp
              omega

theorem matchSellGo_accounting (fuel : Nat) :
    ∀ (sell : Order) (bids : OrderHeap) (ids : List String) (ts : List Trade)
      (s' : Order) (b' : OrderHeap) (ids' : List String),
      matchSellGo fuel sell bids ids = (ts, s', b', ids') →
      ids' ⊆ ids ∧ s'.ID = sell.ID ∧ s'.Quantity = sell.Quantity ∧
        s'.FilledQty = sell.FilledQty + sumQty ts ∧ sumQty ts ≤ sell.RemainingQty := by
  induction fuel with
  | zero =>
    intro sell bids ids ts s' b' ids' heq
    injection heq with h1 h2
    injection h2 with h2a h2b
    injection h2b with h2b h2c
    subst h1
    subst h2a
    subst h2c
    simp
  | succ fuel ih =>
    intro sell bids ids ts s' b' ids' heq
    rw [matchSellGo] at heq
    by_cases hcond : 0 < bids.orders.length ∧ 0 < sell.RemainingQty
    case neg =>
      rw [if_neg hcond] at heq
      injection heq with h1 h2
      injection h2 with h2a h2b
      injection h2b with h2b h2c
      subst h1
      subst h2a
      subst h2c
      simp
    case pos =>
      rw [if_pos hcond] at heq
      cases hpeek : heapPeek bids with
      | none =>
        rw [hpeek] at heq
        injection heq with h1 h2
        injection h2 with h2a h2b
        injection h2b with h2b h2c
        subst h1
        subst h2a
        subst h2c
        simp
      | some bestBid =>
        rw [hpeek] at heq
        dsimp only at heq
        by_cases hprice : sell.Price > bestBid.Price
        · rw [if_pos hprice] at heq
          injection heq with h1 h2
          injection h2 with h2a h2b
          injection h2b with h2b h2c
          subst h1
          subst h2a
          subst h2c
          simp
        · rw [if_neg hprice] at heq
          set q := min sell.RemainingQty bestBid.RemainingQty with hq
          set sell2 := sell.Fill q with hsell2
          set bid2 := bestBid.Fill q with hbid2
          set bids1 : OrderHeap :=
            { orders := bids.orders.set 0 bid2, isMax := bids.isMax } with hbids1
          have hqle : q ≤ sell.RemainingQty := by rw [hq]; omega
          have hs2 : sell2.RemainingQty = sell.RemainingQty - q := by
            rw [hsell2, Fill_RemainingQty]
          by_cases hrem : bid2.RemainingQty = 0
          · rw [if_pos hrem] at heq
            rcases hr : matchSellGo fuel sell2 (heapPop bids1) (ids.erase bid2.ID) with
              ⟨ts0, s0, b0, i0⟩
            rw [hr] at heq
            dsimp only at heq
            injection heq with h1 h2
            injection h2 with h2a h2b
            injection h2b with h2b h2c
            subst h1
            subst h2a
            subst h2c
            obtain ⟨hsub, hid, hqt, hfq, hsle⟩ := ih sell2 (heapPop bids1)
              (ids.erase bid2.ID) ts0 s0 b0 i0 hr
            refine ⟨hsub.trans (List.erase_subset ..), ?_, ?_, ?_, ?_⟩
            · rw [hid, hsell2]
              simp
            · rw [hqt, hsell2]
              simp
            · rw [sumQty_cons, hfq, hsell2]
              have : (NewTrade bid2 sell2 bestBid.Price q).Quantity = q := rfl
              rw [this]
              simp
              omega
            · rw [sumQty_cons]
              have : (NewTrade bid2 sell2 bestBid.Price q).Quantity = q := rfl
              rw [this]
              rw [hs2] at hsle
              omega
          · rw [if_neg hrem] at heq
            have hq0 : sell2.RemainingQty = 0 := by
              have h1 : bid2.RemainingQty = bestBid.RemainingQty - q := by
                rw [hbid2, Fill_RemainingQty]
              rw [h1] at hrem
              rw [hs2, hq]
              omega
            rw [matchSellGo_rem_zero fuel sell2 bids1 ids hq0] at heq
            dsimp only at heq
            injection heq with h1 h2
            injection h2 with h2a h2b
            injection h2b with h2b h2c
            subst h1
            subst h2a
            subst h2c
            refine ⟨List.Subset.refl ids, ?_, ?_, ?_, ?_⟩
            · rw [hsell2]
              simp
            · rw [hsell2]
              simp
            · rw [sumQty_cons, hsell2]
              have : (NewTrade bid2 sell2 bestBid.Price q).Quantity = q := rfl
              rw [this]
              simp
            · rw [sumQty_cons]
              have : (NewTrade bid2 sell2 bestBid.Price q).Quantity = q := rfl
              rw [this]
              simp
              omega

theorem matchBuyGo_wf (fuel : Nat) :
    ∀ (buy : Order) (asks : OrderHeap) (ids : List String) (ts : List Trade)
      (b' : Order) (a' : OrderHeap) (ids' : List String),
      matchBuyGo fuel buy asks ids = (ts, b', a', ids') →
      ids.Nodup →
      (∀ o ∈ asks.orders, o.ID ∈ ids →
        0 < o.RemainingQty ∧ o.Status ≠ StatusCancelled) →
      ids'.Nodup ∧
      (∀ o ∈ a'.orders, o.ID ∈ ids' →
        0 < o.RemainingQty ∧ o.Status ≠ StatusCancelled) ∧
      (∀ o ∈ a'.orders, ∃ o0, o0 ∈ asks.orders ∧ o.ID = o0.ID) := by
  induction fuel with
  | zero =>
    intro buy asks ids ts b' a' ids' heq hnd hlive
    injection heq with h1 h2
    injection h2 with h2a h2b
    injection h2b with h2b h2c
    subst h2b
    subst h2c
    exact ⟨hnd, hlive, fun o ho => ⟨o, ho, rfl⟩⟩
  | succ fuel ih =>
    intro buy asks ids ts b' a' ids' heq hnd hlive
    rw [matchBuyGo] at heq
    by_cases hcond : 0 < asks.orders.length ∧ 0 < buy.RemainingQty
    case neg =>
      rw [if_neg hcond] at heq
      injection heq with h1 h2
      injection h2 with h2a h2b
      injection h2b with h2b h2c
      subst h2b
      subst h2c
      exact ⟨hnd, hlive, fun o ho => ⟨o, ho, rfl⟩⟩
    case pos =>
      rw [if_pos hcond] at heq
      cases hpeek : heapPeek asks with
      | none =>
        rw [hpeek] at heq
        injection heq with h1 h2
        injection h2 with h2a h2b
        injection h2b with h2b h2c
        subst h2b
        subst h2c
        exact ⟨hnd, hlive, fun o ho => ⟨o, ho, rfl⟩⟩
      | some bestAsk =>
        rw [hpeek] at heq
        dsimp only at heq
        by_cases hprice : buy.Price < bestAsk.Price
        · rw [if_pos hprice] at heq
          injection heq with h1 h2
          injection h2 with h2a h2b
          injection h2b with h2b h2c
          subst h2b
          subst h2c
          exact ⟨hnd, hlive, fun o ho => ⟨o, ho, rfl⟩⟩
        · rw [if_neg hprice] at heq
          set q := min buy.RemainingQty bestAsk.RemainingQty with hq
          set buy2 := buy.Fill q with hbuy2
          set ask2 := bestAsk.Fill q with hask2
          set asks1 : OrderHeap :=
            { orders := asks.orders.set 0 ask2, isMax := asks.isMax } with hasks1
          obtain ⟨rest, hrest⟩ := heapPeek_mem asks bestAsk hpeek
          have hset : asks1.orders = ask2 :: rest := by
            rw [hasks1]
            dsimp only
            rw [hrest]
            rfl
          by_cases hrem : ask2.RemainingQty = 0
          · rw [if_pos hrem] at heq
            rcases hr : matchBuyGo fuel buy2 (heapPop asks1) (ids.erase ask2.ID) with
              ⟨ts0, b0, a0, i0⟩
            rw [hr] at heq
            dsimp only at heq
            injection heq with h1 h2
            injection h2 with h2a h2b
            injection h2b with h2b h2c
            subst h2b
            subst h2c
            have hpop : List.Perm (heapPop asks1).orders rest :=
              heapPop_perm asks1 ask2 rest hset
            have hlive2 : ∀ o ∈ (heapPop asks1).orders, o.ID ∈ ids.erase ask2.ID →
                0 < o.RemainingQty ∧ o.Status ≠ StatusCancelled := by
              intro o ho hoid
              have homem : o ∈ asks.orders := by
                rw [hrest]
                exact List.mem_cons_of_mem _ (hpop.mem_iff.mp ho)
              exact hlive o homem (List.mem_of_mem_erase hoid)
            obtain ⟨hnd0, hlive0, hids0⟩ := ih buy2 (heapPop asks1) (ids.erase ask2.ID)
              ts0 b0 a0 i0 hr (hnd.erase _) hlive2
            refine ⟨hnd0, hlive0, fun o ho => ?_⟩
            obtain ⟨o0, ho0, hoid⟩ := hids0 o ho
            refine ⟨o0, ?_, hoid⟩
            rw [hrest]
            exact List.mem_cons_of_mem _ (hpop.mem_iff.mp ho0)
          · rw [if_neg hrem] at heq
            have hqpos : 0 < q := by
              have h1 : ask2.RemainingQty = bestAsk.RemainingQty - q := by
                rw [hask2, Fill_RemainingQty]
              rw [h1] at hrem
              rw [hq]
              rcases hcond with ⟨-, hb⟩
              omega
            have hq0 : buy2.RemainingQty = 0 := by
              have h1 : ask2.RemainingQty = bestAsk.RemainingQty - q := by
                rw [hask2, Fill_RemainingQty]
              have h2 : buy2.RemainingQty = buy.RemainingQty - q := by
                rw [hbuy2, Fill_RemainingQty]
              rw [h1] at hrem
              rw [h2, hq]
              omega
            rw [matchBuyGo_rem_zero fuel buy2 asks1 ids hq0] at heq
            dsimp only at heq
            injection heq with h1 h2
            injection h2 with h2a h2b
            injection h2b with h2b h2c
            subst h2b
            subst h2c
            refine ⟨hnd, ?_, ?_⟩
            · intro o ho hoid
              rw [hset] at ho
              rcases List.mem_cons.mp ho with rfl | ho'
              · refine ⟨Nat.pos_of_ne_zero hrem, ?_⟩
                rw [hask2, Fill_status_ne_cancelled_of_rem bestAsk q hqpos
                  (by rw [← hask2]; exact hrem)]
                decide
              · exact hlive o (by rw [hrest]; exact List.mem_cons_of_mem _ ho') hoid
            · intro o ho
              rw [hset] at ho
              rcases List.mem_cons.mp ho with rfl | ho'
              · refine ⟨bestAsk, (by rw [hrest]; exact List.mem_cons_self _ _), ?_⟩
                rw [hask2]
                simp
              · exact ⟨o, (by rw [hrest]; exact List.mem_cons_of_mem _ ho'), rfl⟩

theorem matchSellGo_wf (fuel : Nat) :
    ∀ (sell : Order) (bids : OrderHeap) (ids : List String) (ts : List Trade)
      (s' : Order) (b' : OrderHeap) (ids' : List String),
      matchSellGo fuel sell bids ids = (ts, s', b', ids') →
      ids.Nodup →
      (∀ o ∈ bids.orders, o.ID ∈ ids →
        0 < o.RemainingQty ∧ o.Status ≠ StatusCancelled) →
      ids'.Nodup ∧
      (∀ o ∈ b'.orders, o.ID ∈ ids' →
        0 < o.RemainingQty ∧ o.Status ≠ StatusCancelled) ∧
      (∀ o ∈ b'.orders, ∃ o0, o0 ∈ bids.orders ∧ o.ID = o0.ID) := by
  induction fuel with
  | zero =>
    intro sell bids ids ts s' b' ids' heq hnd hlive
    injection heq with h1 h2
    injection h2 with h2a h2b
    injection h2b with h2b h2c
    subst h2b
    subst h2c
    exact ⟨hnd, hlive, fun o ho => ⟨o, ho, rfl⟩⟩
  | succ fuel ih =>
    intro sell bids ids ts s' b' ids' heq hnd hlive
    rw [matchSellGo] at heq
    by_cases hcond : 0 < bids.orders.length ∧ 0 < sell.RemainingQty
    case neg =>
      rw [if_neg hcond] at heq
      injection heq with h1 h2
      injection h2 with h2a h2b
      injection h2b with h2b h2c
      subst h2b
      subst h2c
      exact ⟨hnd, hlive, fun o ho => ⟨o, ho, rfl⟩⟩
    case pos =>
      rw [if_pos hcond] at heq
      cases hpeek : heapPeek bids with
      | none =>
        rw [hpeek] at heq
        injection heq with h1 h2
        injection h2 with h2a h2b
        injection h2b with h2b h2c
        subst h2b
        subst h2c
        exact ⟨hnd, hlive, fun o ho => ⟨o, ho, rfl⟩⟩
      | some bestBid =>
        rw [hpeek] at heq
        dsimp only at heq
        by_cases hprice : sell.Price > bestBid.Price
        · rw [if_pos hprice] at heq
          injection heq with h1 h2
          injection h2 with h2a h2b
          injection h2b with h2b h2c
          subst h2b
          subst h2c
          exact ⟨hnd, hlive, fun o ho => ⟨o, ho, rfl⟩⟩
        · rw [if_neg hprice] at heq
          set q := min sell.RemainingQty bestBid.RemainingQty with hq
          set sell2 := sell.Fill q with hsell2
          set bid2 := bestBid.Fill q with hbid2
          set bids1 : OrderHeap :=
            { orders := bids.orders.set 0 bid2, isMax := bids.isMax } with hbids1
          obtain ⟨rest, hrest⟩ := heapPeek_mem bids bestBid hpeek
          have hset : bids1.orders = bid2 :: rest := by
            rw [hbids1]
            dsimp only
            rw [hrest]
            rfl
          by_cases hrem : bid2.RemainingQty = 0
          · rw [if_pos hrem] at heq
            rcases hr : matchSellGo fuel sell2 (heapPop bids1) (ids.erase bid2.ID) with
              ⟨ts0, s0, b0, i0⟩
            rw [hr] at heq
            dsimp only at heq
            injection heq with h1 h2
            injection h2 with h2a h2b
            injection h2b with h2b h2c
            subst h2b
            subst h2c
            have hpop : List.Perm (heapPop bids1).orders rest :=
              heapPop_perm bids1 bid2 rest hset
            have hlive2 : ∀ o ∈ (heapPop bids1).orders, o.ID ∈ ids.erase bid2.ID →
                0 < o.RemainingQty ∧ o.Status ≠ StatusCancelled := by
              intro o ho hoid
              have homem : o ∈ bids.orders := by
                rw [hrest]
                exact List.mem_cons_of_mem _ (hpop.mem_iff.mp ho)
              exact hlive o homem (List.mem_of_mem_erase hoid)
            obtain ⟨hnd0, hlive0, hids0⟩ := ih sell2 (heapPop bids1) (ids.erase bid2.ID)
              ts0 s0 b0 i0 hr (hnd.erase _) hlive2
            refine ⟨hnd0, hlive0, fun o ho => ?_⟩
            obtain ⟨o0, ho0, hoid⟩ := hids0 o ho
            refine ⟨o0, ?_, hoid⟩
            rw [hrest]
            exact List.mem_cons_of_mem _ (hpop.mem_iff.mp ho0)
          · rw [if_neg hrem] at heq
            have hqpos : 0 < q := by
              have h1 : bid2.RemainingQty = bestBid.RemainingQty - q := by
                rw [hbid2, Fill_RemainingQty]
              rw [h1] at hrem
              rw [hq]
              rcases hcond with ⟨-, hb⟩
              omega
            have hq0 : sell2.RemainingQty = 0 := by
              have h1 : bid2.RemainingQty = bestBid.RemainingQty - q := by
                rw [hbid2, Fill_RemainingQty]
              have h2 : sell2.RemainingQty = sell.RemainingQty - q := by
                rw [hsell2, Fill_RemainingQty]
              rw [h1] at hrem
              rw [h2, hq]
              omega
            rw [matchSellGo_rem_zero fuel sell2 bids1 ids hq0] at heq
            dsimp only at heq
            injection heq with h1 h2
            injection h2 with h2a h2b
            injection h2b with h2b h2c
            subst h2b
            subst h2c
            refine ⟨hnd, ?_, ?_⟩
            · intro o ho hoid
              rw [hset] at ho
              rcases List.mem_cons.mp ho with rfl | ho'
              · refine ⟨Nat.pos_of_ne_zero hrem, ?_⟩
                rw [hbid2, Fill_status_ne_cancelled_of_rem bestBid q hqpos
                  (by rw [← hbid2]; exact hrem)]
                decide
              · exact hlive o (by rw [hrest]; exact List.mem_cons_of_mem _ ho') hoid
            · intro o ho
              rw [hset] at ho
              rcases List.mem_cons.mp ho with rfl | ho'
              · refine ⟨bestBid, (by rw [hrest]; exact List.mem_cons_self _ _), ?_⟩
                rw [hbid2]
                simp
              · exact ⟨o, (by rw [hrest]; exact List.mem_cons_of_mem _ ho'), rfl⟩

/-- Well-formedness of a book: the by-id key set has no duplicates, and
every heap order whose id is still indexed is live (positive remainder, not
cancelled). -/
def BookWF (ob : Orderbook) : Prop :=
  ob.ids.Nodup ∧
    ∀ o ∈ ob.bids.orders ++ ob.asks.orders, o.ID ∈ ob.ids →
      0 < o.RemainingQty ∧ o.Status ≠ StatusCancelled

theorem GetOrder_ok_inv (ob : Orderbook) (id : String) (o : Order)
    (h : ob.GetOrder id = .ok o) :
    id ∈ ob.ids ∧ o ∈ ob.bids.orders ++ ob.asks.orders ∧ o.ID = id := by
  unfold Orderbook.GetOrder at h
  by_cases hmem : id ∈ ob.ids
  · rw [if_pos hmem] at h
    cases hf : (ob.bids.orders ++ ob.asks.orders).find? (fun o => o.ID = id) with
    | none =>
      rw [hf] at h
      cases h
    | some o2 =>
      rw [hf] at h
      injection h with h2
      subst h2
      refine ⟨hmem, List.mem_of_find?_eq_some hf, ?_⟩
      have := List.find?_some hf
      simpa using this
  · rw [if_neg hmem] at h
    cases h

/-- Claim C10 (confirmed): an incoming order that is fully filled during its
own `PlaceOrder` call (all of its remaining quantity is consumed by the
emitted trades) is never inserted into the by-id index, so a subsequent
`CancelOrder` or `GetOrder` with its id returns `ErrOrderNotFound`; moreover
the book stays well-formed, so an id lookup can only ever reach an order
with a positive remainder that is not cancelled. -/
theorem c10_fully_filled_order_unreachable (ob : Orderbook) (order : Order)
    (trades : List Trade) (ob' : Orderbook)
    (hwf : BookWF ob)
    (hfresh : order.ID ∉ ob.ids)
    (hok : ob.PlaceOrder order = .ok (trades, ob'))
    (hfull : sumQty trades = order.RemainingQty) :
    order.ID ∉ ob'.ids ∧
      ob'.GetOrder order.ID = .error .orderNotFound ∧
      ob'.CancelOrder order.ID = (ob', some .orderNotFound) ∧
      BookWF ob' ∧
      ∀ id o, ob'.GetOrder id = .ok o →
        0 < o.RemainingQty ∧ o.Status ≠ StatusCancelled := by
  obtain ⟨hnd, hlive⟩ := hwf
  unfold Orderbook.PlaceOrder at hok
  by_cases hp : order.Price > 10000
  · rw [if_pos hp] at hok
    simp at hok
  · rw [if_neg hp] at hok
    by_cases hq : order.Quantity = 0
    · rw [if_pos hq] at hok
      simp at hok
    · rw [if_neg hq] at hok
      by_cases hside : order.IsBuy = true
      · rw [if_pos hside] at hok
        rcases hr : matchBuyGo (ob.asks.orders.length + 2) order ob.asks ob.ids with
          ⟨ts0, b0, a0, i0⟩
        rw [hr] at hok
        dsimp only at hok
        obtain ⟨hsub, hbid, hbqt, hbfq, hsle⟩ :=
          matchBuyGo_accounting (ob.asks.orders.length + 2) order ob.asks ob.ids
            ts0 b0 a0 i0 hr
        obtain ⟨hnd0, hlive0, hids0⟩ :=
          matchBuyGo_wf (ob.asks.orders.length + 2) order ob.asks ob.ids
            ts0 b0 a0 i0 hr hnd
            (fun o ho hid => hlive o (List.mem_append_right _ ho) hid)
        have hts : ts0 = trades := by
          by_cases hpush : 0 < b0.RemainingQty ∧ b0.Status ≠ StatusCancelled
          · rw [if_pos hpush] at hok
            simp only [Except.ok.injEq, Prod.mk.injEq] at hok
            exact hok.1
          · rw [if_neg hpush] at hok
            simp only [Except.ok.injEq, Prod.mk.injEq] at hok
            exact hok.1
        subst hts
        have hb0rem : b0.RemainingQty = 0 := by
          unfold Order.RemainingQty at *
          rw [hbqt, hbfq]
          omega
        rw [if_neg (by rw [hb0rem]; intro hc; exact absurd hc.1 (by omega))] at hok
        simp only [Except.ok.injEq, Prod.mk.injEq] at hok
        obtain ⟨-, hob⟩ := hok
        subst hob
        have hnotmem : order.ID ∉ i0 := fun hmem => hfresh (hsub hmem)
        refine ⟨hnotmem, ?_, ?_, ?_, ?_⟩
        · unfold Orderbook.GetOrder
          rw [if_neg hnotmem]
        · unfold Orderbook.CancelOrder
          rw [if_neg hnotmem]
        · refine ⟨hnd0, ?_⟩
          intro o ho hid
          rcases List.mem_append.mp ho with hob | hoa
          · exact hlive o (List.mem_append_left _ hob) (hsub hid)
          · exact hlive0 o hoa hid
        · intro id o hgo
          obtain ⟨hid, hom, hoid⟩ := GetOrder_ok_inv _ id o hgo
          rcases List.mem_append.mp hom with hob | hoa
          · exact hlive o (List.mem_append_left _ hob) (hsub (hoid ▸ hid))
          · exact hlive0 o hoa (hoid ▸ hid)
      · rw [if_neg hside] at hok
        rcases hr : matchSellGo (ob.bids.orders.length + 2) order ob.bids ob.ids with
          ⟨ts0, s0, b0, i0⟩
        rw [hr] at hok
        dsimp only at hok
        obtain ⟨hsub, hbid, hbqt, hbfq, hsle⟩ :=
          matchSellGo_accounting (ob.bids.orders.length + 2) order ob.bids ob.ids
            ts0 s0 b0 i0 hr
        obtain ⟨hnd0, hlive0, hids0⟩ :=
          matchSellGo_wf (ob.bids.orders.length + 2) order ob.bids ob.ids
            ts0 s0 b0 i0 hr hnd
            (fun o ho hid => hlive o (List.mem_append_left _ ho) hid)
        have hts : ts0 = trades := by
          by_cases hpush : 0 < s0.RemainingQty ∧ s0.Status ≠ StatusCancelled
          · rw [if_pos hpush] at hok
            simp only [Except.ok.injEq, Prod.mk.injEq] at hok
            exact hok.1
          · rw [if_neg hpush] at hok
            simp only [Except.ok.injEq, Prod.mk.injEq] at hok
            exact hok.1
        subst hts
        have hb0rem : s0.RemainingQty = 0 := by
          unfold Order.RemainingQty at *
          rw [hbqt, hbfq]
          omega
        rw [if_neg (by rw [hb0rem]; intro hc; exact absurd hc.1 (by omega))] at hok
        simp only [Except.ok.injEq, Prod.mk.injEq] at hok
        obtain ⟨-, hob⟩ := hok
        subst hob
        have hnotmem : order.ID ∉ i0 := fun hmem => hfresh (hsub hmem)
        refine ⟨hnotmem, ?_, ?_, ?_, ?_⟩
        · unfold Orderbook.GetOrder
          rw [if_neg hnotmem]
        · unfold Orderbook.CancelOrder
          rw [if_neg hnotmem]
        · refine ⟨hnd0, ?_⟩
          intro o ho hid
          rcases List.mem_append.mp ho with hob | hoa
          · exact hlive0 o hob hid
          · exact hlive o (List.mem_append_right _ hoa) (hsub hid)
        · intro id o hgo
          obtain ⟨hid, hom, hoid⟩ := GetOrder_ok_inv _ id o hgo
          rcases List.mem_append.mp hom with hob | hoa
          · exact hlive0 o hob (hoid ▸ hid)
          · exact hlive o (List.mem_append_right _ hoa) (hsub (hoid ▸ hid))

/-- Result of placing the S4 buy against the book that still holds the live
S4 sell (no cancellation): used by the witnesses below. -/
def c9wRes : Except ObErr (List Trade × Orderbook) := obS4a.PlaceOrder buyS4

/-- Trades of `c9wRes`. -/
def c9wTrades : List Trade :=
  match c9wRes with
  | .ok (ts, _) => ts
  | .error _ => []

/-- Book of `c9wRes`. -/
def c9wBook : Orderbook :=
  match c9wRes with
  | .ok (_, ob) => ob
  | .error _ => NewOrderbook

/-- Closed instance of claim C9: the BUY 10@5000 against the book holding
SELL 10@5000 trades at the resting order's price. -/
theorem c9_execution_price_and_quantity_witness :
    (buyS4.IsBuy = true → ∀ i (hi : i < c9wTrades.length),
      ∃ a, a ∈ obS4a.asks.orders ∧
        (c9wTrades.get ⟨i, hi⟩).SellOrderID = a.ID ∧
        (c9wTrades.get ⟨i, hi⟩).SellerID = a.UserID ∧
        (c9wTrades.get ⟨i, hi⟩).Price = a.Price ∧
        (c9wTrades.get ⟨i, hi⟩).BuyOrderID = buyS4.ID ∧
        (c9wTrades.get ⟨i, hi⟩).BuyerID = buyS4.UserID ∧
        a.Price ≤ buyS4.Price ∧
        (c9wTrades.get ⟨i, hi⟩).Quantity =
          min (buyS4.RemainingQty - sumQty (c9wTrades.take i)) a.RemainingQty) ∧
    (buyS4.IsBuy = false → ∀ i (hi : i < c9wTrades.length),
      ∃ b, b ∈ obS4a.bids.orders ∧
        (c9wTrades.get ⟨i, hi⟩).BuyOrderID = b.ID ∧
        (c9wTrades.get ⟨i, hi⟩).BuyerID = b.UserID ∧
        (c9wTrades.get ⟨i, hi⟩).Price = b.Price ∧
        (c9wTrades.get ⟨i, hi⟩).SellOrderID = buyS4.ID ∧
        (c9wTrades.get ⟨i, hi⟩).SellerID = buyS4.UserID ∧
        buyS4.Price ≤ b.Price ∧
        (c9wTrades.get ⟨i, hi⟩).Quantity =
          min (buyS4.RemainingQty - sumQty (c9wTrades.take i)) b.RemainingQty) :=
  c9_execution_price_and_quantity obS4a buyS4 c9wTrades c9wBook rfl

/-- Closed instance of claim C10: the S4 buy is fully filled by its own
`PlaceOrder` call, so its id is not indexed afterwards and both lookups
fail. -/
theorem c10_fully_filled_order_unreachable_witness :
    buyS4.ID ∉ c9wBook.ids ∧
      c9wBook.GetOrder buyS4.ID = .error .orderNotFound ∧
      c9wBook.CancelOrder buyS4.ID = (c9wBook, some .orderNotFound) ∧
      BookWF c9wBook ∧
      ∀ id o, c9wBook.GetOrder id = .ok o →
        0 < o.RemainingQty ∧ o.Status ≠ StatusCancelled :=
  c10_fully_filled_order_unreachable obS4a buyS4 c9wTrades c9wBook
    ⟨by decide, by decide⟩ (by decide) rfl (by decide)
